import Mathlib

/-!
Verification of the skill-document scoring engine (tools/analyzer).

The Python modules are shallowly embedded: pure helper functions over
strings become Lean functions on `List Char` / `String`, the scorers
become functions from an explicit configuration record and document
representation to result records, and file-system / dynamic-typing
effects are made explicit (`Option` for absent files, `Except` for
Python exceptions).  Machine floats in `smooth_score` are modelled over
`ℝ` with Python's banker's rounding (`round` = round-half-to-even).
Strings are treated at ASCII granularity (`Char.toLower`,
`Char.isAlphanum`), which covers every input exercised by the claims.
-/

deriving instance DecidableEq for Except

namespace Analyzer

/-! ## Python-style character and string primitives -/

/-- Python `\s` / `str.strip` whitespace, restricted to the ASCII range
(the inputs in this development contain no Unicode whitespace). -/
def pyIsSpace (c : Char) : Bool :=
  c = ' ' || c = '\t' || c = '\n' || c = '\r' || c = '\x0b' || c = '\x0c'

/-- Python regex `\w` word character (ASCII fragment). -/
def isWordChar (c : Char) : Bool :=
  c.isAlphanum || c = '_'

/-- `str.lower()` (ASCII fragment, via `Char.toLower`). -/
def pyLower (s : List Char) : List Char :=
  s.map Char.toLower

/-- Python `needle in haystack` substring test. -/
def strContains : List Char → List Char → Bool
  | s, p =>
    if p.isPrefixOf s then true
    else
      match s with
      | [] => false
      | _ :: t => strContains t p

/-- Python `haystack.count(needle)`: non-overlapping occurrence count,
scanning left to right (`"".count("")` is `len+1`, as in Python). -/
def strCount (s p : List Char) : Nat :=
  if hp : p = [] then s.length + 1
  else
    match s with
    | [] => 0
    | c :: t =>
      if p.isPrefixOf (c :: t) then 1 + strCount (t.drop (p.length - 1)) p
      else strCount t p
termination_by s.length
decreasing_by
  · simp only [List.length_cons]
    have := List.length_drop (p.length - 1) t
    omega
  · simp only [List.length_cons]; omega

/-- Python `str.strip()` (whitespace strip on both ends). -/
def pyStrip (s : List Char) : List Char :=
  ((s.dropWhile pyIsSpace).reverse.dropWhile pyIsSpace).reverse

/-- Regex `a` followed (later, same string, `.` semantics ignored since
callers pass single lines) by `b`: embedding of patterns of the shape
`a .* b`. -/
def containsThen : List Char → List Char → List Char → Bool
  | s, a, b =>
    (a.isPrefixOf s && strContains (s.drop a.length) b) ||
    match s with
    | [] => false
    | _ :: t => containsThen t a b

/-! ## scoring_utils.py -/

/-- Python 3 `round()` on an exact real: round half to even. -/
noncomputable def roundHalfEven (x : ℝ) : ℤ :=
  if Int.fract x < 1/2 then ⌊x⌋
  else if 1/2 < Int.fract x then ⌈x⌉
  else if Even ⌊x⌋ then ⌊x⌋ else ⌊x⌋ + 1

theorem roundHalfEven_intCast (n : ℤ) : roundHalfEven (n : ℝ) = n := by
  unfold roundHalfEven
  rw [Int.fract_intCast]
  norm_num

theorem ceil_eq_floor_add_one_of_fract_pos {x : ℝ} (h : 0 < Int.fract x) :
    ⌈x⌉ = ⌊x⌋ + 1 := by
  have hx : (⌊x⌋ : ℝ) < x := by
    have hadd := Int.floor_add_fract x
    linarith
  have hge : ⌊x⌋ + 1 ≤ ⌈x⌉ := by
    have hlt : (⌊x⌋ : ℝ) < ⌈x⌉ := lt_of_lt_of_le hx (Int.le_ceil x)
    exact_mod_cast Int.add_one_le_iff.mpr (by exact_mod_cast hlt)
  exact le_antisymm (Int.ceil_le_floor_add_one x) hge

theorem roundHalfEven_le_ceil (x : ℝ) : roundHalfEven x ≤ ⌈x⌉ := by
  unfold roundHalfEven
  have h1 : (⌊x⌋ : ℤ) ≤ ⌈x⌉ := Int.floor_le_ceil x
  split
  · exact h1
  · split
    · exact le_refl _
    · have hf : Int.fract x = 1/2 :=
        le_antisymm (not_lt.mp (by assumption)) (not_lt.mp (by assumption))
      have hceil : ⌈x⌉ = ⌊x⌋ + 1 :=
        ceil_eq_floor_add_one_of_fract_pos (by rw [hf]; norm_num)
      split
      · omega
      · omega

theorem floor_le_roundHalfEven (x : ℝ) : ⌊x⌋ ≤ roundHalfEven x := by
  unfold roundHalfEven
  have h1 : (⌊x⌋ : ℤ) ≤ ⌈x⌉ := Int.floor_le_ceil x
  split
  · exact le_refl _
  · split
    · exact h1
    · split
      · exact le_refl _
      · omega

theorem roundHalfEven_mono : Monotone roundHalfEven := by
  intro x y hxy
  rcases lt_or_eq_of_le (Int.floor_le_floor hxy) with hf | hf
  · calc roundHalfEven x ≤ ⌈x⌉ := roundHalfEven_le_ceil x
      _ ≤ ⌊x⌋ + 1 := Int.ceil_le_floor_add_one x
      _ ≤ ⌊y⌋ := by omega
      _ ≤ roundHalfEven y := floor_le_roundHalfEven y
  · -- same floor; compare fractional parts
    have hfr : Int.fract x ≤ Int.fract y := by
      have haddx := Int.floor_add_fract x
      have haddy := Int.floor_add_fract y
      rw [hf] at haddx
      linarith
    by_cases h1 : Int.fract x < 1/2
    · have hx : roundHalfEven x = ⌊x⌋ := by unfold roundHalfEven; rw [if_pos h1]
      rw [hx, hf]
      exact floor_le_roundHalfEven y
    · have h1y : ¬ Int.fract y < 1/2 := fun h => h1 (lt_of_le_of_lt hfr h)
      by_cases h2 : 1/2 < Int.fract x
      · have h2y : 1/2 < Int.fract y := lt_of_lt_of_le h2 hfr
        have hx : roundHalfEven x = ⌈x⌉ := by
          unfold roundHalfEven; rw [if_neg h1, if_pos h2]
        have hy : roundHalfEven y = ⌈y⌉ := by
          unfold roundHalfEven; rw [if_neg h1y, if_pos h2y]
        rw [hx, hy]
        exact Int.ceil_le_ceil hxy
      · have hfx : Int.fract x = 1/2 := le_antisymm (not_lt.mp h2) (not_lt.mp h1)
        by_cases h2y : 1/2 < Int.fract y
        · -- roundHalfEven x ≤ ⌊x⌋ + 1 = ⌊y⌋ + 1 = ⌈y⌉ = roundHalfEven y
          have hy : roundHalfEven y = ⌈y⌉ := by
            unfold roundHalfEven; rw [if_neg h1y, if_pos h2y]
          have hceily : ⌈y⌉ = ⌊y⌋ + 1 :=
            ceil_eq_floor_add_one_of_fract_pos (by linarith)
          have hx : roundHalfEven x ≤ ⌊x⌋ + 1 := by
            unfold roundHalfEven
            rw [if_neg h1, if_neg h2]
            split
            · omega
            · omega
          omega
        · have hfy : Int.fract y = 1/2 := le_antisymm (not_lt.mp h2y) (not_lt.mp h1y)
          have hxy' : x = y := by
            have haddx := Int.floor_add_fract x
            have haddy := Int.floor_add_fract y
            rw [hf] at haddx
            rw [hfx] at haddx
            rw [hfy] at haddy
            linarith
          rw [hxy']

/-- `smooth_score(value, max_value, max_score)` from scoring_utils.py:
logarithmic smoothing curve with hard floors/ceilings.  The interior
branch is `int(round(ratio * max_score))` with
`ratio = log(1+value)/log(1+max_value)`. -/
noncomputable def smooth_score (value max_value max_score : ℤ) : ℤ :=
  if value ≤ 0 then 0
  else if max_value ≤ 0 then max_score
  else if max_value ≤ value then max_score
  else roundHalfEven ((Real.log (1 + (value : ℝ)) / Real.log (1 + (max_value : ℝ))) * (max_score : ℝ))

theorem smooth_score_of_nonpos (c s : ℤ) {v : ℤ} (hv : v ≤ 0) :
    smooth_score v c s = 0 := by
  unfold smooth_score
  simp [hv]

theorem smooth_score_of_ge (s : ℤ) {v c : ℤ} (hv : 0 < v) (hc : c ≤ v) :
    smooth_score v c s = s := by
  unfold smooth_score
  rw [if_neg (by omega)]
  by_cases h : c ≤ 0
  · simp [h]
  · simp [h, hc]

theorem smooth_score_nonneg {s : ℤ} (hs : 0 ≤ s) (v c : ℤ) :
    0 ≤ smooth_score v c s := by
  unfold smooth_score
  split
  · exact le_refl 0
  · split
    · exact hs
    · split
      · exact hs
      · rename_i h0 hc hvc
        have h0v : (0:ℤ) < v := by omega
        have hcpos : (0:ℤ) < c := by omega
        have hlogv : 0 < Real.log (1 + (v:ℝ)) := by
          apply Real.log_pos
          have : (1:ℝ) ≤ (v:ℝ) := by exact_mod_cast h0v
          linarith
        have hlogc : 0 < Real.log (1 + (c:ℝ)) := by
          apply Real.log_pos
          have : (1:ℝ) ≤ (c:ℝ) := by exact_mod_cast hcpos
          linarith
        have hratio : 0 ≤ Real.log (1 + (v:ℝ)) / Real.log (1 + (c:ℝ)) :=
          le_of_lt (div_pos hlogv hlogc)
        have hss : (0:ℝ) ≤ (s:ℝ) := by exact_mod_cast hs
        have : (0:ℤ) = roundHalfEven ((0:ℤ):ℝ) := (roundHalfEven_intCast 0).symm
        rw [show ((0:ℤ):ℝ) = (0:ℝ) by norm_num] at this
        rw [this]
        exact roundHalfEven_mono (by positivity)

theorem smooth_score_le {s : ℤ} (hs : 0 ≤ s) (v c : ℤ) :
    smooth_score v c s ≤ s := by
  unfold smooth_score
  split
  · exact hs
  · split
    · exact le_refl s
    · split
      · exact le_refl s
      · rename_i h0 hc hvc
        have h0v : (0:ℤ) < v := by omega
        have hcpos : (0:ℤ) < c := by omega
        have hvc' : v < c := by omega
        have hv1 : (1:ℝ) < 1 + (v:ℝ) := by
          have : (1:ℝ) ≤ (v:ℝ) := by exact_mod_cast h0v
          linarith
        have hlogv : 0 < Real.log (1 + (v:ℝ)) := Real.log_pos hv1
        have hlogc : Real.log (1 + (v:ℝ)) < Real.log (1 + (c:ℝ)) := by
          apply Real.log_lt_log (by linarith)
          have : (v:ℝ) < (c:ℝ) := by exact_mod_cast hvc'
          linarith
        have hratio : Real.log (1 + (v:ℝ)) / Real.log (1 + (c:ℝ)) ≤ 1 := by
          rw [div_le_one (by linarith)]
          exact le_of_lt hlogc
        have hss : (0:ℝ) ≤ (s:ℝ) := by exact_mod_cast hs
        calc roundHalfEven ((Real.log (1 + (v:ℝ)) / Real.log (1 + (c:ℝ))) * (s:ℝ))
            ≤ roundHalfEven ((s:ℝ)) := by
              apply roundHalfEven_mono
              nlinarith [le_of_lt (div_pos hlogv (by linarith : (0:ℝ) < Real.log (1 + (c:ℝ))))]
          _ = s := roundHalfEven_intCast s

theorem smooth_score_mono {s : ℤ} (hs : 0 ≤ s) (c : ℤ) {v1 v2 : ℤ} (h : v1 ≤ v2) :
    smooth_score v1 c s ≤ smooth_score v2 c s := by
  by_cases h1 : v1 ≤ 0
  · rw [smooth_score_of_nonpos c s h1]
    exact smooth_score_nonneg hs v2 c
  · have h1' : 0 < v1 := by omega
    have h2' : 0 < v2 := by omega
    by_cases hc : c ≤ v1
    · rw [smooth_score_of_ge s h1' hc, smooth_score_of_ge s h2' (le_trans hc h)]
    · by_cases hc2 : c ≤ v2
      · rw [smooth_score_of_ge s h2' hc2]
        exact smooth_score_le hs v1 c
      · -- both in the logarithmic branch
        unfold smooth_score
        rw [if_neg (by omega), if_neg (by omega), if_neg (by omega),
            if_neg (by omega), if_neg (by omega), if_neg (by omega)]
        apply roundHalfEven_mono
        have hcpos : (0:ℤ) < c := by omega
        have hlogc : 0 < Real.log (1 + (c:ℝ)) := by
          apply Real.log_pos
          have : (1:ℝ) ≤ (c:ℝ) := by exact_mod_cast hcpos
          linarith
        have hloglele : Real.log (1 + (v1:ℝ)) ≤ Real.log (1 + (v2:ℝ)) := by
          apply Real.log_le_log (by positivity)
          have : (v1:ℝ) ≤ (v2:ℝ) := by exact_mod_cast h
          linarith
        have hss : (0:ℝ) ≤ (s:ℝ) := by exact_mod_cast hs
        apply mul_le_mul_of_nonneg_right _ hss
        exact div_le_div_of_nonneg_right hloglele hlogc.le

/-! ## skill_document.py: Section and word-boundary matching -/

/-- `Section` dataclass from skill_document.py. -/
structure Section where
  title : String
  level : Nat
  content : String
  start_line : Nat
  end_line : Int

/-- Whether an optional neighbouring character counts as a word character
(`\w`); an absent neighbour (string edge) counts as non-word. -/
def isWordOpt : Option Char → Bool
  | none => false
  | some c => isWordChar c

/-- Regex `\b`: a position is a word boundary iff exactly one of its two
neighbours is a word character. -/
def wordBoundary (l r : Option Char) : Bool :=
  isWordOpt l != isWordOpt r

/-- Does `\b name s? \b` match at the start of suffix `s`, whose character
to the left is `prev`?  Implements the greedy optional `s?` with
backtracking, as the `re` engine does. -/
def wbMatchHere (prev : Option Char) (s nm : List Char) : Bool :=
  wordBoundary prev s.head? && nm.isPrefixOf s &&
    (let left : Option Char := match nm.getLast? with
      | some c => some c
      | none => prev
     match s.drop nm.length with
     | 's' :: r2 => wordBoundary (some 's') r2.head? || wordBoundary left (some 's')
     | rest => wordBoundary left rest.head?)

/-- `re.search` of `\b name s? \b`: try every start position left to
right. -/
def wbSearch (nm : List Char) : Option Char → List Char → Bool
  | prev, s =>
    wbMatchHere prev s nm ||
      match s with
      | [] => false
      | c :: t => wbSearch nm (some c) t

/-- `Section.matches(name)`: case-insensitive word-boundary match with an
optional trailing plural `s` on the query
(`re.search(r'\b' + re.escape(name_lower) + r's?\b', title_lower)`),
guarded by `if not name or not name.strip(): return False`. -/
def Section.matches (sec : Section) (name : String) : Bool :=
  if name.toList.all pyIsSpace then false
  else wbSearch (pyLower name.toList) none (pyLower sec.title.toList)

/-! ## Claims C4, C5, C10 -/

/-- C5: for all fixed ceilings (with the score ceiling nonnegative, as in
every rubric), `smooth_score` is monotone non-decreasing in its first
argument, its result lies in `[0, ceiling_score]`, it is `0` for every
`value ≤ 0`, `ceiling_score` for every `value ≥ ceiling_value` with
`value > 0`, and `ceiling_score` whenever `ceiling_value ≤ 0` and
`value > 0`. -/
theorem claim_C5 (c s : ℤ) (hs : 0 ≤ s) :
    (∀ v1 v2 : ℤ, v1 ≤ v2 → smooth_score v1 c s ≤ smooth_score v2 c s) ∧
    (∀ v : ℤ, 0 ≤ smooth_score v c s ∧ smooth_score v c s ≤ s) ∧
    (∀ v : ℤ, v ≤ 0 → smooth_score v c s = 0) ∧
    (∀ v : ℤ, 0 < v → c ≤ v → smooth_score v c s = s) ∧
    (∀ v : ℤ, c ≤ 0 → 0 < v → smooth_score v c s = s) := by
  refine ⟨fun v1 v2 h => smooth_score_mono hs c h,
    fun v => ⟨smooth_score_nonneg hs v c, smooth_score_le hs v c⟩,
    fun v hv => smooth_score_of_nonpos c s hv,
    fun v hv hc => smooth_score_of_ge s hv hc,
    fun v hc hv => smooth_score_of_ge s hv (le_trans hc (le_of_lt hv))⟩

/-- Witness for C5 at `ceiling_value = 8`, `ceiling_score = 10`,
`value = 12 ≥ ceiling_value`. -/
theorem claim_C5_witness : (0:ℤ) ≤ 10 ∧ smooth_score 12 8 10 = 10 :=
  ⟨by decide, (claim_C5 8 10 (by decide)).2.2.2.1 12 (by decide) (by decide)⟩

/-- C4: `Section.matches` never matches an empty or whitespace-only query
(for any title), rejects a query that occurs only as a proper substring of
a longer title word (`"Reuse Patterns"` / `"Database Usage"` vs `"Use"`),
accepts contiguous whole-word queries (`"When to Use This Skill"` vs
`"When to Use"`), and is case-insensitive on those examples. -/
theorem claim_C4 :
    (∀ (sec : Section) (name : String),
      name.toList.all pyIsSpace → sec.matches name = false) ∧
    Section.matches ⟨"Reuse Patterns", 2, "", 0, 0⟩ "Use" = false ∧
    Section.matches ⟨"Database Usage", 2, "", 0, 0⟩ "Use" = false ∧
    Section.matches ⟨"When to Use This Skill", 2, "", 0, 0⟩ "When to Use" = true ∧
    Section.matches ⟨"WHEN TO USE THIS SKILL", 2, "", 0, 0⟩ "when TO Use" = true := by
  refine ⟨fun sec name h => ?_, by decide, by decide, by decide, by decide⟩
  unfold Section.matches
  rw [if_pos h]

/-- Witness for C4's universal part at a whitespace-only query. -/
theorem claim_C4_witness :
    ("  ".toList.all pyIsSpace) = true ∧
    Section.matches ⟨"Examples", 1, "", 0, 0⟩ "  " = false :=
  ⟨by decide, claim_C4.1 ⟨"Examples", 1, "", 0, 0⟩ "  " (by decide)⟩

/-- C10: plural tolerance of `Section.matches` is one-directional — the
query may gain a trailing `s` against the title
(`matches "Example"` on title `"Examples"` is `True`) but never lose one
(`matches "Examples"` on title `"Example"` is `False`). -/
theorem claim_C10 :
    Section.matches ⟨"Examples", 2, "", 0, 0⟩ "Example" = true ∧
    Section.matches ⟨"Example", 2, "", 0, 0⟩ "Examples" = false := by
  decide

/-! ## skill_document.py: section parsing (`_parse_sections`) -/

/-- Python `s.split('\n')` on character lists. -/
def splitNl : List Char → List (List Char)
  | [] => [[]]
  | '\n' :: t => [] :: splitNl t
  | c :: t =>
    match splitNl t with
    | h :: r => (c :: h) :: r
    | [] => [[c]]

/-- Python `content.split('\n')`. -/
def pySplitLines (s : String) : List String :=
  (splitNl s.toList).map String.mk

/-- Python `'\n'.join(lines)`. -/
def joinNl : List String → String
  | [] => ""
  | [l] => l
  | l :: ls => l ++ "\n" ++ joinNl ls

/-- Number of leading `#` characters of a line. -/
def leadingHashes : List Char → Nat
  | '#' :: t => leadingHashes t + 1
  | _ => 0

/-- `re.match(r'^(#{1,6})\s+(.+)$', line)` succeeds: 1–6 leading hashes
followed by at least one whitespace character and at least one further
character (`.` may itself match whitespace after backtracking of `\s+`). -/
def isHeadingB (line : String) : Bool :=
  let l := line.toList
  let k := leadingHashes l
  decide (1 ≤ k) && decide (k ≤ 6) &&
    (match l.drop k with
     | c :: _ :: _ => pyIsSpace c
     | _ => false)

/-- Level (`len(group(1))`) and stripped title (`group(2).strip()`) of a
heading line; `group(2).strip()` equals the whole post-hash tail stripped,
since `\s+`/`.+` only move whitespace between the groups. -/
def parseHeading (line : String) : Option (Nat × String) :=
  if isHeadingB line then
    some (leadingHashes line.toList,
      String.mk (pyStrip (line.toList.drop (leadingHashes line.toList))))
  else none

/-- The scanning loop of `SkillDocument._parse_sections`: `cur` is the
open section (title, level, start line), `content` its accumulated
non-heading lines, `i` the absolute index of the next line, `acc` the
closed sections in order. -/
def parseLoop : List String → Nat → Option (String × Nat × Nat) →
    List String → List Section → List Section
  | [], _, none, _, acc => acc
  | [], i, some (t, lv, st), content, acc =>
      acc ++ [⟨t, lv, joinNl content, st, (i : Int) - 1⟩]
  | line :: rest, i, cur, content, acc =>
      match parseHeading line with
      | some (lv, title) =>
          let acc2 := match cur with
            | none => acc
            | some (t, l0, st) =>
                acc ++ [⟨t, l0, joinNl content, st, (i : Int) - 1⟩]
          parseLoop rest (i+1) (some (title, lv, i)) [] acc2
      | none =>
          match cur with
          | none => parseLoop rest (i+1) none content acc
          | some c => parseLoop rest (i+1) (some c) (content ++ [line]) acc

/-- `SkillDocument._parse_sections` over the markdown body. -/
def parseSections (body : String) : List Section :=
  parseLoop (pySplitLines body) 0 none [] []

/-- Line `j` lies in the span of a section (heading line included):
`start_line ≤ j ≤ end_line`. -/
def inSpan (j : Nat) (s : Section) : Bool :=
  decide (s.start_line ≤ j) && decide ((j : Int) ≤ s.end_line)

theorem inSpan_count (t : String) (lv st : Nat) (c : String) (e : Int) (j : Nat) :
    (if inSpan j ⟨t, lv, c, st, e⟩ = true then (1:ℕ) else 0) =
      if st ≤ j ∧ (j : Int) ≤ e then 1 else 0 := by
  simp only [inSpan, Bool.and_eq_true, decide_eq_true_eq]

theorem parseLoop_countP_some (j : Nat) :
    ∀ (rest : List String) (i : Nat) (t : String) (lv st : Nat)
      (content : List String) (acc : List Section), st ≤ i →
      (parseLoop rest i (some (t, lv, st)) content acc).countP (inSpan j) =
        acc.countP (inSpan j) + (if st ≤ j ∧ j < i + rest.length then 1 else 0) := by
  intro rest
  induction rest with
  | nil =>
    intro i t lv st content acc hst
    simp only [parseLoop, List.countP_append, List.countP_cons, List.countP_nil,
      List.length_nil]
    rw [inSpan_count]
    have hiff : (st ≤ j ∧ (j : Int) ≤ (i : Int) - 1) ↔ (st ≤ j ∧ j < i + 0) := by omega
    rw [if_congr hiff rfl rfl]
    simp
  | cons line rest ih =>
    intro i t lv st content acc hst
    simp only [parseLoop]
    cases hp : parseHeading line with
    | some p =>
      obtain ⟨lv2, title2⟩ := p
      rw [ih (i+1) title2 lv2 i [] _ (by omega)]
      simp only [List.countP_append, List.countP_cons, List.countP_nil, List.length_cons]
      rw [inSpan_count]
      have hiff : (st ≤ j ∧ (j : Int) ≤ (i : Int) - 1) ↔ (st ≤ j ∧ j < i) := by omega
      rw [if_congr hiff rfl rfl]
      split_ifs <;> omega
    | none =>
      rw [ih (i+1) t lv st (content ++ [line]) acc (by omega)]
      simp only [List.length_cons]
      have hiff : (st ≤ j ∧ j < i + 1 + rest.length) ↔
          (st ≤ j ∧ j < i + (rest.length + 1)) := by omega
      rw [if_congr hiff rfl rfl]

theorem parseLoop_countP_none (j : Nat) :
    ∀ (rest : List String) (i : Nat) (content : List String) (acc : List Section),
      (parseLoop rest i none content acc).countP (inSpan j) =
        acc.countP (inSpan j) +
          (if i ≤ j ∧ j < i + rest.length ∧ (rest.take (j - i + 1)).any isHeadingB
           then 1 else 0) := by
  intro rest
  induction rest with
  | nil =>
    intro i content acc
    simp only [parseLoop, List.length_nil, List.take_nil, List.any_nil]
    simp
  | cons line rest ih =>
    intro i content acc
    simp only [parseLoop]
    cases hp : parseHeading line with
    | some p =>
      obtain ⟨lv2, title2⟩ := p
      rw [parseLoop_countP_some j rest (i+1) title2 lv2 i [] acc (by omega)]
      simp only [List.length_cons]
      have hline : isHeadingB line = true := by
        by_contra hc
        rw [Bool.not_eq_true] at hc
        simp [parseHeading, hc] at hp
      congr 1
      have htake : (List.take (j - i + 1) (line :: rest)).any isHeadingB = true := by
        have : j - i + 1 = (j - i) + 1 := rfl
        rw [this, List.take_succ_cons, List.any_cons, hline]
        simp
      have hiff : (i ≤ j ∧ j < i + 1 + rest.length) ↔
          (i ≤ j ∧ j < i + (rest.length + 1) ∧
            (List.take (j - i + 1) (line :: rest)).any isHeadingB = true) := by
        rw [htake]
        constructor
        · intro hh
          exact ⟨hh.1, by omega, rfl⟩
        · intro hh
          exact ⟨hh.1, by omega⟩
      rw [if_congr hiff rfl rfl]
    | none =>
      have hline : isHeadingB line = false := by
        by_contra hc
        rw [Bool.not_eq_false] at hc
        simp [parseHeading, hc] at hp
      rw [ih (i+1) content acc]
      simp only [List.length_cons]
      congr 1
      by_cases hij : i + 1 ≤ j
      · have h1 : j - i + 1 = (j - (i+1) + 1) + 1 := by omega
        have htake : (List.take (j - i + 1) (line :: rest)).any isHeadingB =
            (List.take (j - (i+1) + 1) rest).any isHeadingB := by
          rw [h1, List.take_succ_cons, List.any_cons, hline]
          simp
        have hiff : (i + 1 ≤ j ∧ j < i + 1 + rest.length ∧
              (List.take (j - (i+1) + 1) rest).any isHeadingB = true) ↔
            (i ≤ j ∧ j < i + (rest.length + 1) ∧
              (List.take (j - i + 1) (line :: rest)).any isHeadingB = true) := by
          rw [htake]
          constructor
          · intro hh
            exact ⟨by omega, by omega, hh.2.2⟩
          · intro hh
            exact ⟨by omega, by omega, hh.2.2⟩
        rw [if_congr hiff rfl rfl]
      · have h0 : j - i + 1 = 1 := by omega
        have htake : (List.take (j - i + 1) (line :: rest)).any isHeadingB = false := by
          rw [h0]
          show (List.take (0 + 1) (line :: rest)).any isHeadingB = false
          rw [List.take_succ_cons, List.take_zero, List.any_cons, List.any_nil, hline]
          simp
        have hiff1 : ¬(i + 1 ≤ j ∧ j < i + 1 + rest.length ∧
            (List.take (j - (i+1) + 1) rest).any isHeadingB = true) := by
          intro hh
          omega
        have hiff2 : ¬(i ≤ j ∧ j < i + (rest.length + 1) ∧
            (List.take (j - i + 1) (line :: rest)).any isHeadingB = true) := by
          intro hh
          rw [htake] at hh
          exact Bool.false_ne_true hh.2.2
        rw [if_neg hiff1, if_neg hiff2]

/-- C7: the sections parsed from a document body partition the body's
line indices from the first heading onward — a line index `j` lies in the
span of exactly one parsed section iff some heading occurs at or before
`j`, and in no section's span otherwise (in particular every line before
the first heading belongs to no section, and no line is in two sections'
spans). -/
theorem claim_C7 (body : String) (j : Nat) (hj : j < (pySplitLines body).length) :
    (parseSections body).countP (inSpan j) =
      if ((pySplitLines body).take (j + 1)).any isHeadingB then 1 else 0 := by
  unfold parseSections
  rw [parseLoop_countP_none j (pySplitLines body) 0 [] []]
  simp only [List.countP_nil, Nat.zero_add]
  have hiff : (0 ≤ j ∧ j < (pySplitLines body).length ∧
      ((pySplitLines body).take (j - 0 + 1)).any isHeadingB = true) ↔
      (((pySplitLines body).take (j + 1)).any isHeadingB = true) := by
    constructor
    · intro hh
      simpa using hh.2.2
    · intro hh
      exact ⟨by omega, by omega, by simpa using hh⟩
  rw [if_congr hiff rfl rfl]

/-- Witness for C7 on the two-line body `"# A\nx"` at line index 1. -/
theorem claim_C7_witness :
    1 < (pySplitLines "# A\nx").length ∧
    (parseSections "# A\nx").countP (inSpan 1) =
      if ((pySplitLines "# A\nx").take 2).any isHeadingB then 1 else 0 :=
  ⟨by decide, claim_C7 "# A\nx" 1 (by decide)⟩

/-! ## utils.py -/

/-- Suffix of `s` after the first occurrence of `p`, if any. -/
def cutAfterSub : List Char → List Char → Option (List Char)
  | s, p =>
    if p.isPrefixOf s then some (s.drop p.length)
    else
      match s with
      | [] => none
      | _ :: t => cutAfterSub t p

theorem cutAfterSub_length :
    ∀ (s p r : List Char), cutAfterSub s p = some r → r.length + p.length ≤ s.length := by
  intro s
  induction s with
  | nil =>
    intro p r h
    rw [cutAfterSub] at h
    split at h
    · rename_i hp
      have hlen : p.length ≤ ([] : List Char).length :=
        (List.isPrefixOf_iff_prefix.mp hp).length_le
      simp only [Option.some_inj] at h
      subst h
      simp only [List.length_drop, List.length_nil] at *
      omega
    · exact absurd h (by simp)
  | cons c t ih =>
    intro p r h
    rw [cutAfterSub] at h
    split at h
    · rename_i hp
      have hlen : p.length ≤ (c :: t).length :=
        (List.isPrefixOf_iff_prefix.mp hp).length_le
      simp only [Option.some_inj] at h
      subst h
      simp only [List.length_drop, List.length_cons] at *
      omega
    · have := ih p r h
      simp only [List.length_cons]
      omega

/-- `utils.count_code_blocks`: `len(re.findall(r'```[\s\S]*?```', content))`
— non-overlapping backtick-fence pairs, scanning left to right. -/
def countCodeBlocksGo (s : List Char) : Nat :=
  match h1 : cutAfterSub s ['`', '`', '`'] with
  | none => 0
  | some rest1 =>
    match h2 : cutAfterSub rest1 ['`', '`', '`'] with
    | none => 0
    | some rest2 => 1 + countCodeBlocksGo rest2
termination_by s.length
decreasing_by
  have e1 := cutAfterSub_length s ['`', '`', '`'] rest1 h1
  have e2 := cutAfterSub_length rest1 ['`', '`', '`'] rest2 h2
  simp only [List.length_cons, List.length_nil] at e1 e2
  omega

def count_code_blocks (content : String) : Nat :=
  countCodeBlocksGo content.toList

/-- `utils.count_sections`: `len(re.findall(r'^#{1,6}\s+.+$', content, re.MULTILINE))`. -/
def count_sections (content : String) : Nat :=
  (pySplitLines content).countP isHeadingB

/-- Heading-with-variant regex from `utils.has_section`:
`re.search(r'^#{1,6}\s+.*' + re.escape(variant) + r'.*$', content,
re.MULTILINE | re.IGNORECASE)` — some line starts with 1–6 hashes and one
whitespace and contains the variant (case-insensitively) after them. -/
def hasSectionVariantLine (content : String) (variant : List Char) : Bool :=
  (pySplitLines content).any fun line =>
    let l := line.toList
    let k := leadingHashes l
    decide (1 ≤ k) && decide (k ≤ 6) &&
      (match l.drop k with
       | c :: _ => pyIsSpace c
       | [] => false) &&
      strContains (pyLower (l.drop (k+1))) (pyLower variant)

/-- The `section_variants` table of `utils.has_section`. -/
def sectionVariants (name : String) : List String :=
  if name = "When to Use" then
    ["when to use", "when to use this skill", "usage scenario", "use cases",
     "when should", "使用场景", "适用场景"]
  else if name = "Quick Start" then
    ["quick start", "getting started", "quickstart", "get started", "快速开始", "入门"]
  else if name = "Best Practice" then
    ["best practice", "best practices", "recommendations", "guidelines", "最佳实践", "建议"]
  else if name = "Example" then
    ["example", "examples", "usage example", "示例", "用法示例"]
  else []

/-- `utils.has_section(content, section_name)`. -/
def has_section (content : String) (section_name : String) : Bool :=
  let patterns := String.mk (pyLower section_name.toList) :: sectionVariants section_name
  patterns.any fun v => hasSectionVariantLine content v.toList

/-- `utils.check_keywords`: any keyword occurs case-insensitively. -/
def check_keywords (content : String) (keywords : List String) : Bool :=
  keywords.any fun k => strContains (pyLower content.toList) (pyLower k.toList)

/-- `utils.count_keyword_occurrences`: total non-overlapping counts. -/
def count_keyword_occurrences (content : String) (keywords : List String) : Nat :=
  (keywords.map fun k => strCount (pyLower content.toList) (pyLower k.toList)).sum

/-- `utils.calculate_avg_line_length` (float modelled as `ℚ`). -/
def calculate_avg_line_length (content : String) : ℚ :=
  let lines := pySplitLines content
  let nonEmpty := lines.filter fun l => !(pyStrip l.toList).isEmpty
  if nonEmpty.isEmpty then 0
  else ((nonEmpty.map fun l => ((l.toList.length : ℚ))).sum) / (nonEmpty.length : ℚ)

/-- Pattern `\d+\.\s+`: a digit, a dot and a whitespace occur in sequence
(one digit before the dot suffices for `\d+`). -/
def hasDigitDotSpace : List Char → Bool
  | [] => false
  | c :: t =>
    (c.isDigit &&
      (match t with
       | '.' :: w :: _ => pyIsSpace w
       | _ => false)) ||
    hasDigitDotSpace t

/-- Pattern `step\s+\d+` (on lowered text): `step`, then at least one
whitespace, then a digit right after the whitespace run. -/
def hasStepNum : List Char → Bool
  | [] => false
  | s@(_ :: t) =>
    (['s','t','e','p'].isPrefixOf s &&
      (let rest := s.drop 4
       let w := rest.takeWhile pyIsSpace
       !w.isEmpty &&
         (match rest.drop w.length with
          | d :: _ => d.isDigit
          | [] => false))) ||
    hasStepNum t

/-- Pattern `first.*?then.*?finally` (per line, on lowered text). -/
def hasFirstThenFinally : List Char → Bool
  | [] => false
  | s@(_ :: t) =>
    (['f','i','r','s','t'].isPrefixOf s &&
      containsThen (s.drop 5) ['t','h','e','n'] ['f','i','n','a','l','l','y']) ||
    hasFirstThenFinally t

/-- `utils.has_step_by_step`. -/
def has_step_by_step (content : String) : Bool :=
  let lc := pyLower content.toList
  hasDigitDotSpace content.toList || hasStepNum lc ||
    (splitNl lc).any hasFirstThenFinally

/-! ## utils.extract_use_cases

`re.search(r'^#{1,6}\s+.*(?:when to use|usage scenario).*?\n(.*?)(?=\n#{1,6}|\Z)',
content, re.IGNORECASE | re.DOTALL | re.MULTILINE)` followed by
`re.findall(r'^[-*]\s+(.+)$', section, re.MULTILINE)`.

With `re.DOTALL` the greedy `.*` runs to the end of the string and
backtracks, so the match starts at the first heading line after which the
phrase occurs anywhere (case-insensitively), uses the last such phrase
occurrence, takes the first newline after it, and captures up to the next
`\n#` or the end of the string. -/

/-- First index at which `pat` is a prefix of the corresponding suffix. -/
def firstIdxStartsWith : List Char → List Char → Option Nat
  | s, pat =>
    if pat.isPrefixOf s then some 0
    else
      match s with
      | [] => none
      | _ :: t => (firstIdxStartsWith t pat).map (· + 1)

/-- Length of the alternation `(?:when to use|usage scenario)` matching at
index `r` of the lowered text, if any. -/
def phraseAt (ls : List Char) (r : Nat) : Option Nat :=
  if "when to use".toList.isPrefixOf (ls.drop r) then some 11
  else if "usage scenario".toList.isPrefixOf (ls.drop r) then some 14
  else none

def hasNlFrom (ls : List Char) (m : Nat) : Bool :=
  (ls.drop m).any (· = '\n')

/-- Last phrase occurrence at index `≥ q` that is followed by a newline
(the greedy `.*` picks the last viable alternative). -/
def lastViablePhrase (ls : List Char) (q : Nat) : Option (Nat × Nat) :=
  ((List.range ls.length).filterMap fun r =>
    if q ≤ r then
      match phraseAt ls r with
      | some L => if hasNlFrom ls (r + L) then some (r, L) else none
      | none => none
    else none).getLast?

def firstNlFrom (ls : List Char) (pos : Nat) : Option Nat :=
  ((ls.drop pos).findIdx? (· = '\n')).map (· + pos)

/-- `(.*?)(?=\n#{1,6}|\Z)`: capture from `startPos` up to the first
`"\n#"` or the end. -/
def groupUntilHeadingOrEnd (s : List Char) (startPos : Nat) : List Char :=
  let tail := s.drop startPos
  match firstIdxStartsWith tail ['\n', '#'] with
  | some e => tail.take e
  | none => tail

/-- Scan heading-line start offsets in order; the first heading followed
somewhere by a viable phrase wins (leftmost regex match). -/
def euGo (orig ls : List Char) : List (List Char) → Nat → Option (List Char)
  | [], _ => none
  | line :: rest, offset =>
    let k := leadingHashes line
    let ok := decide (1 ≤ k) && decide (k ≤ 6) &&
      (match line.drop k with
       | c :: _ => pyIsSpace c
       | [] => false)
    if ok then
      match lastViablePhrase ls (offset + k + 1) with
      | some (r, L) =>
        match firstNlFrom ls (r + L) with
        | some m => some (groupUntilHeadingOrEnd orig (m + 1))
        | none => none
      | none => euGo orig ls rest (offset + line.length + 1)
    else euGo orig ls rest (offset + line.length + 1)

/-- Content of one `^[-*]\s+(.+)$` bullet line (`findall` group), if the
line is a bullet. -/
def bulletContent (line : String) : Option String :=
  match line.toList with
  | [] => none
  | c :: rest =>
    if c = '-' || c = '*' then
      let w := rest.takeWhile pyIsSpace
      if w.isEmpty then none
      else
        match rest.drop w.length with
        | [] => (w.getLast?).map fun lc => String.mk [lc]
        | r => some (String.mk r)
    else none

/-- `utils.extract_use_cases`. -/
def extract_use_cases (content : String) : List String :=
  let orig := content.toList
  let ls := pyLower orig
  match euGo orig ls (splitNl orig) 0 with
  | some sec => (pySplitLines (String.mk sec)).filterMap bulletContent
  | none => []

/-! ## skill_document.py: code blocks -/

/-- `CodeBlock` dataclass from skill_document.py. -/
structure CodeBlock where
  language : String
  content : String
  line_count : Nat
  has_comments : Bool
  is_complete : Bool
  has_error_handling : Bool
deriving DecidableEq

/-- After an opening triple fence: `(\w*)[ \t]*\n` — maximal word run
(the language tag), maximal space/tab run, then a newline; the character
classes are disjoint, so no backtracking is possible. -/
def dropFenceHeader (rest : List Char) : Option (List Char) :=
  let lang := rest.takeWhile isWordChar
  let rest2 := rest.drop lang.length
  let sp := rest2.takeWhile fun c => c = ' ' || c = '\t'
  match rest2.drop sp.length with
  | '\n' :: body => some body
  | _ => none

theorem dropFenceHeader_length {rest body : List Char}
    (h : dropFenceHeader rest = some body) : body.length + 1 ≤ rest.length := by
  rw [dropFenceHeader] at h
  split at h
  · rename_i heq
    simp only [Option.some_inj] at h
    subst h
    have h1 := congrArg List.length heq
    simp only [List.length_drop, List.length_cons] at h1
    omega
  · exact absurd h (by simp)

/-- A fence opening `re.finditer` match attempt at the current position:
returns the language tag and the text after the opening line. -/
def tryOpenFence (s : List Char) : Option (List Char × List Char) :=
  if ['`', '`', '`'].isPrefixOf s then
    match dropFenceHeader (s.drop 3) with
    | some body => some ((s.drop 3).takeWhile isWordChar, body)
    | none => none
  else none

theorem tryOpenFence_length {s lang body : List Char}
    (h : tryOpenFence s = some (lang, body)) : body.length + 4 ≤ s.length := by
  rw [tryOpenFence] at h
  split at h
  · rename_i hp
    have hlen : 3 ≤ s.length := by
      have := (List.isPrefixOf_iff_prefix.mp hp).length_le
      simpa using this
    split at h
    · rename_i body0 hdrop
      simp only [Option.some_inj, Prod.mk.injEq] at h
      obtain ⟨-, h2⟩ := h
      subst h2
      have := dropFenceHeader_length hdrop
      simp only [List.length_drop] at this
      omega
    · exact absurd h (by simp)
  · exact absurd h (by simp)

/-- `(.*?)```: split the body at the first closing fence. -/
def splitAtCloseFence : List Char → Option (List Char × List Char)
  | [] => none
  | c :: t =>
    if ['`', '`', '`'].isPrefixOf (c :: t) then some ([], (c :: t).drop 3)
    else
      match splitAtCloseFence t with
      | some (content, after) => some (c :: content, after)
      | none => none

theorem splitAtCloseFence_length :
    ∀ (s content after : List Char), splitAtCloseFence s = some (content, after) →
      after.length + 3 ≤ s.length := by
  intro s
  induction s with
  | nil =>
    intro content after h
    simp [splitAtCloseFence] at h
  | cons c t ih =>
    intro content after h
    simp only [splitAtCloseFence] at h
    split at h
    · rename_i hp
      have hlen : 3 ≤ (c :: t).length := by
        simpa using (List.isPrefixOf_iff_prefix.mp hp).length_le
      simp only [Option.some_inj, Prod.mk.injEq] at h
      obtain ⟨-, h2⟩ := h
      subst h2
      simp only [List.length_drop, List.length_cons] at *
      omega
    · split at h
      · rename_i content0 after0 hrec
        simp only [Option.some_inj, Prod.mk.injEq] at h
        obtain ⟨-, h2⟩ := h
        subst h2
        have := ih content0 after0 hrec
        simp only [List.length_cons]
        omega
      · exact absurd h (by simp)

/-- `re.finditer(r'```(\w*)[ \t]*\n(.*?)```', body, re.DOTALL)`: scan left
to right; a position that fails to open a fence advances by one character;
a full match resumes after its closing fence. -/
def findCodeBlocksGo : List Char → List (List Char × List Char)
  | [] => []
  | c :: t =>
    match h1 : tryOpenFence (c :: t) with
    | some (lang, body) =>
      match h2 : splitAtCloseFence body with
      | some (content, after) => (lang, content) :: findCodeBlocksGo after
      | none => findCodeBlocksGo t
    | none => findCodeBlocksGo t
termination_by s => s.length
decreasing_by
  · have e1 := tryOpenFence_length h1
    have e2 := splitAtCloseFence_length body content after h2
    simp only [List.length_cons] at e1 ⊢
    omega
  · simp only [List.length_cons]
    omega
  · simp only [List.length_cons]
    omega

/-- `SkillDocument._detect_comments` pattern table with generic default. -/
def detect_comments (code language : String) : Bool :=
  let c := code.toList
  let l := String.mk (pyLower language.toList)
  if l = "python" || l = "bash" || l = "shell" then strContains c "#".toList
  else if l = "javascript" || l = "typescript" || l = "java" then strContains c "//".toList
  else strContains c "#".toList || strContains c "//".toList

/-- One line matching `const .* = ` / `let .* = ` style alternatives. -/
def codeLineSeq (code : String) (a b : String) : Bool :=
  (splitNl code.toList).any fun ln => containsThen ln a.toList b.toList

/-- `SkillDocument._detect_completeness` pattern table. -/
def detect_completeness (code language : String) : Bool :=
  let c := code.toList
  let l := String.mk (pyLower language.toList)
  if l = "python" then
    strContains c "def ".toList || strContains c "class ".toList ||
      strContains c "async def ".toList
  else if l = "javascript" then
    strContains c "function ".toList || strContains c "class ".toList ||
      codeLineSeq code "const " " = " || codeLineSeq code "let " " = "
  else if l = "typescript" then
    strContains c "function ".toList || strContains c "class ".toList ||
      codeLineSeq code "const " " = " || strContains c "interface ".toList ||
      strContains c "type ".toList
  else if l = "java" then
    strContains c "public ".toList || strContains c "private ".toList ||
      strContains c "protected ".toList || strContains c "class ".toList ||
      strContains c "interface ".toList
  else
    strContains c "function".toList || strContains c "class".toList ||
      strContains c "def".toList

/-- `SkillDocument._detect_error_handling` pattern table
(`re.IGNORECASE`; `throws?` is equivalent to the substring `throw`). -/
def detect_error_handling (code language : String) : Bool :=
  let c := pyLower code.toList
  let l := String.mk (pyLower language.toList)
  if l = "python" then
    strContains c "try:".toList || strContains c "except ".toList ||
      strContains c "raise ".toList || strContains c "assert ".toList
  else if l = "javascript" || l = "typescript" then
    strContains c "try \x7b".toList || strContains c "catch".toList ||
      strContains c "throw ".toList || strContains c ".catch(".toList
  else if l = "java" then
    strContains c "try \x7b".toList || strContains c "catch".toList ||
      strContains c "throw".toList
  else
    strContains c "try".toList || strContains c "catch".toList ||
      strContains c "except".toList || strContains c "error".toList

/-- `SkillDocument._parse_code_blocks`. -/
def parse_code_blocks (body : String) : List CodeBlock :=
  (findCodeBlocksGo body.toList).map fun p =>
    let language := if p.1.isEmpty then "unknown" else String.mk p.1
    let code := String.mk p.2
    { language := language,
      content := code,
      line_count := (splitNl (pyStrip p.2)).length,
      has_comments := detect_comments code language,
      is_complete := detect_completeness code language,
      has_error_handling := detect_error_handling code language }

/-! ## skill_document.py: YAML frontmatter split

`re.match(r'^---\s*\n(.*?)\n---\s*\n(.*)$', raw, re.DOTALL)`.  The regex
engine tries the longest `\s*` first for the opening fence (the last
newline of the whitespace run after `---`), then the earliest closing
`\n---` whose following whitespace run contains a newline (taking the
last such newline), and `(.*)$` takes the remainder.  `yaml.safe_load`
is an external library; it is modelled as always succeeding, so the
`yaml.YAMLError` fallback branch (which returns the whole raw text as
body) is not exercised and the matched frontmatter is kept as raw text. -/

/-- Indices of newlines inside the maximal leading whitespace run. -/
def wsNlGo : List Char → Nat → List Nat
  | [], _ => []
  | c :: t, i =>
    if pyIsSpace c then
      if c = '\n' then i :: wsNlGo t (i + 1) else wsNlGo t (i + 1)
    else []

/-- `(.*?)\n---\s*\n`: accumulate the minimal group, find the earliest
usable closing fence, return (group1, text after the fence line). -/
def closeSearchGo : List Char → List Char → Option (List Char × List Char)
  | acc, s =>
    if ['\n', '-', '-', '-'].isPrefixOf s then
      let rest := s.drop 4
      match (wsNlGo rest 0).getLast? with
      | some pLast => some (acc.reverse, rest.drop (pLast + 1))
      | none =>
        match s with
        | [] => none
        | c :: t => closeSearchGo (c :: acc) t
    else
      match s with
      | [] => none
      | c :: t => closeSearchGo (c :: acc) t

/-- Opening-fence candidates, longest `\s*` first. -/
def tryFmCandidates : List Nat → List Char → Option (List Char × List Char)
  | [], _ => none
  | p :: ps, rest =>
    match closeSearchGo [] (rest.drop (p + 1)) with
    | some ab => some ab
    | none => tryFmCandidates ps rest

/-- `SkillDocument._parse_frontmatter` (frontmatter kept as raw text). -/
def parse_frontmatter (raw : String) : Option String × String :=
  let s := raw.toList
  if ['-', '-', '-'].isPrefixOf s then
    let rest := s.drop 3
    match tryFmCandidates (wsNlGo rest 0).reverse rest with
    | some ab => (some (String.mk ab.1), String.mk ab.2)
    | none => (none, raw)
  else (none, raw)

/-! ## Metadata (metadata.json) and the document aggregate -/

/-- A JSON-like dynamic value of a sidecar metadata field (numbers cover
Python int/float; bool is numeric for Python comparisons). -/
inductive JVal where
  | num : ℚ → JVal
  | str : String → JVal
  | bool : Bool → JVal
  | null : JVal
deriving DecidableEq

/-- A parsed metadata.json record: a flat key-value mapping. -/
abbrev Meta := List (String × JVal)

/-- A Python exception escaping a modelled function. -/
inductive PyErr where
  | typeError : PyErr
  | fileNotFound : String → PyErr
deriving DecidableEq

/-- The parts of a `SkillDocument` the scorers consume.  The lazily
memoized `sections`/`code_blocks` caches are pure functions of the
immutable `markdown_body`, so they are modelled as derived functions. -/
structure SkillDoc where
  markdown_body : String
  metadata : Option Meta
  yaml_frontmatter : Option String
deriving DecidableEq

def SkillDoc.sections (d : SkillDoc) : List Section :=
  parseSections d.markdown_body

def SkillDoc.code_blocks (d : SkillDoc) : List CodeBlock :=
  parse_code_blocks d.markdown_body

/-- `SkillDocument.has_section`. -/
def SkillDoc.has_section (d : SkillDoc) (name : String) : Bool :=
  d.sections.any fun s => s.matches name

/-- Build the document representation from raw SKILL.md text and the
loaded sidecar metadata (`SkillDocument.__init__` after `_load_content` /
`_load_metadata`). -/
def SkillDoc.ofRaw (raw : String) (meta : Option Meta) : SkillDoc :=
  let fm := parse_frontmatter raw
  ⟨fm.2, meta, fm.1⟩

/-- `SkillDocument._load_metadata` / `utils.load_metadata`: the sidecar
input is `none` when the file is absent, `some none` when present but
unparseable JSON (the external `json.load` raising `JSONDecodeError`),
`some (some m)` when it parses to `m`. -/
def load_metadata : Option (Option Meta) → Option Meta
  | none => none
  | some none => none
  | some (some m) => some m

/-! ## Configuration (scoring_weights.json shape + resolved smooth
parameters from config_loader.ScoringConfig) -/

structure ContentWeights where
  total : ℤ
  clarity : ℤ
  technical_depth : ℤ
  documentation : ℤ
  actionability : ℤ
deriving DecidableEq

structure TechWeights where
  total : ℤ
  code_quality : ℤ
  pattern_design : ℤ
  error_handling : ℤ
deriving DecidableEq

structure MaintWeights where
  total : ℤ
  compatibility : ℤ
deriving DecidableEq

structure UxWeights where
  total : ℤ
  ease_of_use : ℤ
  readability : ℤ
deriving DecidableEq

structure Keywords where
  when_to_use : List String
  best_practices : List String
  patterns : List String
  security : List String
  error_handling : List String
  quick_start : List String
deriving DecidableEq

structure AnalysisCfg where
  recent_update_days : ℤ
  active_update_days : ℤ
  ideal_avg_line_length_min : ℚ
  ideal_avg_line_length_max : ℚ
  min_sections_for_full_score : ℤ
deriving DecidableEq

structure StarsThresholds where
  excellent : ℤ
  good : ℤ
  fair : ℤ
deriving DecidableEq

structure GradeThresholds where
  S : ℤ
  A : ℤ
  B : ℤ
  C : ℤ
deriving DecidableEq

/-- The well-typed rubric record the scorers read (`config` dict). -/
structure Config where
  content_weights : ContentWeights
  technical_weights : TechWeights
  maintenance_weights : MaintWeights
  ux_weights : UxWeights
  keywords : Keywords
  analysis : AnalysisCfg
  stars_thresholds : StarsThresholds
  grade_thresholds : GradeThresholds
deriving DecidableEq

/-- A `{max_value, max_score}` pair as returned by
`ScoringConfig.get_smooth_params`. -/
structure SmoothParams where
  max_value : ℤ
  max_score : ℤ
deriving DecidableEq

/-- The resolved smooth-scoring parameters for the six configured paths
(what `get_smooth_params` returns for each scorer call site). -/
structure ScoringParams where
  use_cases : SmoothParams
  code_blocks : SmoothParams
  best_practices : SmoothParams
  sections : SmoothParams
  examples : SmoothParams
  code_block_count : SmoothParams
deriving DecidableEq

/-! ## Scorer inputs (duck-typed `Union[str, SkillDocument]`) -/

/-- The duck-typed `content` parameter of each scorer: raw text or the
parsed document (`isinstance(content, str)` branch). -/
inductive ScorerInput where
  | raw : String → ScorerInput
  | doc : SkillDoc → ScorerInput
deriving DecidableEq

def ScorerInput.contentStr : ScorerInput → String
  | .raw s => s
  | .doc d => d.markdown_body

def ScorerInput.docOpt : ScorerInput → Option SkillDoc
  | .raw _ => none
  | .doc d => some d

/-! ## content_scorer.py -/

/-- Hard-coded action-verb list of `ContentScorer._score_clarity`. -/
def action_verbs : List String :=
  ["design", "create", "implement", "build", "develop",
   "refactor", "migrate", "optimize", "设计", "创建", "实现"]

/-- Hard-coded pitfall keyword list of `ContentScorer._score_documentation`. -/
def pitfall_keywords : List String :=
  ["pitfall", "common mistake", "avoid", "caution", "warning", "note",
   "陷阱", "注意", "避免"]

/-- One `a\s*:.*?\n\s*b\s*:` pair pattern matching at the start of `s`
(lowered text; `.` cannot cross the newline, `\s*` can). -/
def ioPairHere (s a b : List Char) : Bool :=
  a.isPrefixOf s &&
    (let r1 := (s.drop a.length).drop ((s.drop a.length).takeWhile pyIsSpace).length
     match r1 with
     | ':' :: r3 =>
       let r4 := r3.drop (r3.takeWhile (· ≠ '\n')).length
       match r4 with
       | '\n' :: r5 =>
         let r6 := r5.drop (r5.takeWhile pyIsSpace).length
         b.isPrefixOf r6 &&
           (let r7 := r6.drop b.length
            match r7.drop (r7.takeWhile pyIsSpace).length with
            | ':' :: _ => true
            | _ => false)
       | _ => false
     | _ => false)

def ioPairSearch : List Char → List Char → List Char → Bool
  | s, a, b =>
    ioPairHere s a b ||
      match s with
      | [] => false
      | _ :: t => ioPairSearch t a b

/-- `>>>\s+` (Python REPL prompt). -/
def hasReplPrompt : List Char → Bool
  | [] => false
  | s@(_ :: t) =>
    (['>', '>', '>'].isPrefixOf s &&
      (match s.drop 3 with
       | c :: _ => pyIsSpace c
       | [] => false)) ||
    hasReplPrompt t

/-- `ContentScorer._score_input_output_examples`. -/
def score_input_output_examples (content : String) : ℤ :=
  let lc := pyLower content.toList
  if ioPairSearch lc "input".toList "output".toList then 3
  else if ioPairSearch lc "request".toList "response".toList then 3
  else if ioPairSearch lc "before".toList "after".toList then 3
  else if hasReplPrompt lc then 3
  else 0

/-- `ContentScorer._score_clarity`. -/
noncomputable def score_clarity (cfg : Config) (sp : ScoringParams) (content : String)
    (doc? : Option SkillDoc) : ℤ :=
  let has_wtu := match doc? with
    | some d => d.has_section "When to Use"
    | none => has_section content "When to Use"
  let s1 : ℤ := if has_wtu then 5
    else if check_keywords content cfg.keywords.when_to_use then 3 else 0
  let s2 := smooth_score ((extract_use_cases content).length : ℤ)
    sp.use_cases.max_value sp.use_cases.max_score
  let s3 : ℤ := if check_keywords content action_verbs then 3 else 0
  min (s1 + s2 + s3) cfg.content_weights.clarity

/-- `ContentScorer._score_technical_depth`. -/
noncomputable def score_technical_depth (cfg : Config) (sp : ScoringParams) (content : String)
    (doc? : Option SkillDoc) : ℤ :=
  let cb : ℤ := match doc? with
    | some d => d.code_blocks.length
    | none => count_code_blocks content
  let s1 := smooth_score cb sp.code_blocks.max_value sp.code_blocks.max_score
  let has_bp := match doc? with
    | some d => d.has_section "Best Practice"
    | none => has_section content "Best Practice"
  let s2 : ℤ :=
    if has_bp then 5
    else if check_keywords content cfg.keywords.best_practices then
      smooth_score ((count_keyword_occurrences content cfg.keywords.best_practices : ℤ))
        sp.best_practices.max_value sp.best_practices.max_score
    else 0
  let has_pat := match doc? with
    | some d => d.has_section "Pattern" || d.has_section "Architecture"
    | none => has_section content "Pattern" || has_section content "Architecture"
  let s3 : ℤ := if has_pat then 4
    else if check_keywords content cfg.keywords.patterns then 2 else 0
  let s4 := score_input_output_examples content
  min (s1 + s2 + s3 + s4) cfg.content_weights.technical_depth

/-- `ContentScorer._score_documentation`. -/
noncomputable def score_documentation (cfg : Config) (sp : ScoringParams) (content : String)
    (doc? : Option SkillDoc) : ℤ :=
  let sc : ℤ := match doc? with
    | some d => d.sections.length
    | none => count_sections content
  let s1 := smooth_score sc sp.sections.max_value sp.sections.max_score
  let hasEx0 := match doc? with
    | some d => d.has_section "Example"
    | none => has_section content "Example"
  let hasEx := hasEx0 || strContains (pyLower content.toList) "example".toList
  let s2 : ℤ :=
    if hasEx then
      smooth_score ((strCount (pyLower content.toList) "example".toList : ℤ))
        sp.examples.max_value sp.examples.max_score
    else 0
  let hasPit := match doc? with
    | some d => d.has_section "Pitfall" || d.has_section "Common Mistake"
    | none => has_section content "Pitfall" || has_section content "Common Mistake"
  let s3 : ℤ := if hasPit then 3
    else if check_keywords content pitfall_keywords then 2 else 0
  min (s1 + s2 + s3) cfg.content_weights.documentation

/-- `ContentScorer._score_actionability`. -/
def score_actionability (cfg : Config) (content : String)
    (doc? : Option SkillDoc) : ℤ :=
  let s1 : ℤ := if has_step_by_step content then 3 else 0
  let cb := match doc? with
    | some d => d.code_blocks.length
    | none => count_code_blocks content
  let s2 : ℤ := if cb > 0 then 2 else 0
  min (s1 + s2) cfg.content_weights.actionability

structure ContentDetails where
  has_when_to_use : Bool
  use_cases_count : Nat
  code_blocks_count : Nat
  sections_count : Nat
  has_best_practices : Bool
  has_step_by_step : Bool
deriving DecidableEq

structure ContentResult where
  total : ℤ
  max : ℤ
  clarity : ℤ
  technical_depth : ℤ
  documentation : ℤ
  actionability : ℤ
  details : ContentDetails
deriving DecidableEq

/-- `ContentScorer.score` (the `metadata` argument is accepted but unused,
as in the source). -/
noncomputable def ContentScorer.score (cfg : Config) (sp : ScoringParams) (input : ScorerInput)
    (_metadata : Option Meta) : ContentResult :=
  let content := input.contentStr
  let doc? := input.docOpt
  let clarity := score_clarity cfg sp content doc?
  let depth := score_technical_depth cfg sp content doc?
  let docScore := score_documentation cfg sp content doc?
  let action := score_actionability cfg content doc?
  let hwtu := match doc? with
    | some d => d.has_section "When to Use"
    | none => has_section content "When to Use"
  let cbc := match doc? with
    | some d => d.code_blocks.length
    | none => count_code_blocks content
  let scc := match doc? with
    | some d => d.sections.length
    | none => count_sections content
  { total := clarity + depth + docScore + action,
    max := cfg.content_weights.total,
    clarity := clarity,
    technical_depth := depth,
    documentation := docScore,
    actionability := action,
    details :=
      { has_when_to_use := hwtu,
        use_cases_count := (extract_use_cases content).length,
        code_blocks_count := cbc,
        sections_count := scc,
        has_best_practices := check_keywords content cfg.keywords.best_practices,
        has_step_by_step := has_step_by_step content } }

/-! ## technical_scorer.py -/

/-- Hard-coded architecture keyword list of
`TechnicalScorer._score_pattern_design`. -/
def architecture_keywords : List String :=
  ["architecture", "pattern", "design", "架构", "设计"]

/-- `TechnicalScorer._detect_patterns`: keyword hits in the body plus (for
a document input) hits in code-block contents, deduplicated.  The Python
version collects a `set` whose iteration order is unspecified; here the
keyword-list order is kept. -/
def detect_patterns (cfg : Config) (content : String)
    (doc? : Option SkillDoc) : List String :=
  let lc := pyLower content.toList
  let fromBody := cfg.keywords.patterns.filter fun p => strContains lc (pyLower p.toList)
  let fromBlocks := match doc? with
    | some d => cfg.keywords.patterns.filter fun p =>
        d.code_blocks.any fun b => strContains (pyLower b.content.toList) (pyLower p.toList)
    | none => []
  (fromBody ++ fromBlocks).dedup

/-- `TechnicalScorer._score_code_diversity`. -/
def score_code_diversity (d : SkillDoc) : ℤ :=
  if d.code_blocks.isEmpty then 0
  else
    let langs := ((d.code_blocks.filter fun b =>
        !b.language.isEmpty && (String.mk (pyLower b.language.toList) != "unknown")).map
      fun b => String.mk (pyLower b.language.toList)).dedup
    if langs.length ≥ 3 then 3
    else if langs.length ≥ 2 then 2
    else if langs.length ≥ 1 then 1
    else 0

/-- `TechnicalScorer._score_example_quality`. -/
def score_example_quality (d : SkillDoc) : ℤ :=
  if d.code_blocks.isEmpty then 0
  else
    let s1 : ℤ := if d.code_blocks.any (·.is_complete) then 2 else 0
    let s2 : ℤ := if d.code_blocks.any (·.has_comments) then 1 else 0
    let good := d.code_blocks.filter fun b =>
      decide (10 ≤ b.line_count) && decide (b.line_count ≤ 50)
    let s3 : ℤ := if good.length ≥ 2 then 2 else if good.length ≥ 1 then 1 else 0
    min (s1 + s2 + s3) 4

/-- `TechnicalScorer._score_code_quality`. -/
noncomputable def score_code_quality (cfg : Config) (sp : ScoringParams) (content : String)
    (doc? : Option SkillDoc) : ℤ :=
  let cbc := match doc? with
    | some d => d.code_blocks.length
    | none => count_code_blocks content
  let s1 := smooth_score (cbc : ℤ) sp.code_block_count.max_value sp.code_block_count.max_score
  let s23 : ℤ := match doc? with
    | some d => score_code_diversity d + score_example_quality d
    | none => if cbc ≥ 3 then 4 else if cbc ≥ 1 then 2 else 0
  let s4 : ℤ := if check_keywords content cfg.keywords.security then 3 else 0
  min (s1 + s23 + s4) cfg.technical_weights.code_quality

/-- `TechnicalScorer._score_pattern_design`. -/
def score_pattern_design (cfg : Config) (content : String)
    (doc? : Option SkillDoc) : ℤ :=
  let pc := (detect_patterns cfg content doc?).length
  let s1 : ℤ := if pc ≥ 3 then 6 else if pc ≥ 2 then 4 else if pc ≥ 1 then 2 else 0
  let hasArch := match doc? with
    | some d => d.has_section "Architecture" || d.has_section "Pattern"
    | none => has_section content "Architecture" || has_section content "Pattern"
  let s2 : ℤ := if hasArch then 4
    else if check_keywords content architecture_keywords then 2 else 0
  min (s1 + s2) cfg.technical_weights.pattern_design

/-- `TechnicalScorer._score_error_handling`. -/
def score_error_handling (cfg : Config) (content : String)
    (doc? : Option SkillDoc) : ℤ :=
  let s1 : ℤ :=
    if check_keywords content cfg.keywords.error_handling then
      let n := count_keyword_occurrences content cfg.keywords.error_handling
      if n ≥ 5 then 3 else if n ≥ 2 then 2 else if n ≥ 1 then 1 else 0
    else 0
  let hasErrSec := match doc? with
    | some d => d.has_section "Error" || d.has_section "Exception"
    | none => has_section content "Error" || has_section content "Exception"
  let s2 : ℤ := if hasErrSec then 2 else 0
  min (s1 + s2) cfg.technical_weights.error_handling

structure TechnicalDetails where
  code_blocks_count : Nat
  has_security_keywords : Bool
  design_patterns_found : List String
  has_error_handling : Bool
deriving DecidableEq

structure TechnicalResult where
  total : ℤ
  max : ℤ
  code_quality : ℤ
  pattern_design : ℤ
  error_handling : ℤ
  details : TechnicalDetails
deriving DecidableEq

/-- `TechnicalScorer.score`. -/
noncomputable def TechnicalScorer.score (cfg : Config) (sp : ScoringParams)
    (input : ScorerInput) : TechnicalResult :=
  let content := input.contentStr
  let doc? := input.docOpt
  let cq := score_code_quality cfg sp content doc?
  let pd := score_pattern_design cfg content doc?
  let eh := score_error_handling cfg content doc?
  let cbc := match doc? with
    | some d => d.code_blocks.length
    | none => count_code_blocks content
  let hasEH := match doc? with
    | some d => d.code_blocks.any (·.has_error_handling) ||
        check_keywords content cfg.keywords.error_handling
    | none => check_keywords content cfg.keywords.error_handling
  { total := cq + pd + eh,
    max := cfg.technical_weights.total,
    code_quality := cq,
    pattern_design := pd,
    error_handling := eh,
    details :=
      { code_blocks_count := cbc,
        has_security_keywords := check_keywords content cfg.keywords.security,
        design_patterns_found := detect_patterns cfg content doc?,
        has_error_handling := hasEH } }

/-! ## ux_scorer.py -/

/-- `UXScorer._score_ease_of_use`. -/
def score_ease_of_use (cfg : Config) (content : String)
    (doc? : Option SkillDoc) : ℤ :=
  let hasQS := match doc? with
    | some d => d.has_section "Quick Start" || d.has_section "Getting Started"
    | none => has_section content "Quick Start" || has_section content "Getting Started"
  let s1 : ℤ := if hasQS then 3
    else if check_keywords content cfg.keywords.quick_start then 2 else 0
  let s2 : ℤ := if (extract_use_cases content).length > 0 then 2 else 0
  min (s1 + s2) cfg.ux_weights.ease_of_use

/-- `UXScorer._score_readability`. -/
def score_readability (cfg : Config) (content : String)
    (doc? : Option SkillDoc) : ℤ :=
  let avg := calculate_avg_line_length content
  let s1 : ℤ :=
    if cfg.analysis.ideal_avg_line_length_min ≤ avg ∧
        avg ≤ cfg.analysis.ideal_avg_line_length_max then 3
    else if 0 < avg then 1
    else 0
  let sc : ℤ := match doc? with
    | some d => d.sections.length
    | none => count_sections content
  let ms := cfg.analysis.min_sections_for_full_score
  let s2 : ℤ := if sc ≥ ms then 2 else if sc ≥ Int.fdiv ms 2 then 1 else 0
  min (s1 + s2) cfg.ux_weights.readability

structure UxDetails where
  has_quick_start : Bool
  use_cases_count : Nat
  sections_count : Nat
  avg_line_length : ℚ
deriving DecidableEq

structure UxResult where
  total : ℤ
  max : ℤ
  ease_of_use : ℤ
  readability : ℤ
  details : UxDetails
deriving DecidableEq

/-- `UXScorer.score`. -/
def UXScorer.score (cfg : Config) (input : ScorerInput) : UxResult :=
  let content := input.contentStr
  let doc? := input.docOpt
  let ease := score_ease_of_use cfg content doc?
  let readability := score_readability cfg content doc?
  let scc := match doc? with
    | some d => d.sections.length
    | none => count_sections content
  { total := ease + readability,
    max := cfg.ux_weights.total,
    ease_of_use := ease,
    readability := readability,
    details :=
      { has_quick_start := check_keywords content cfg.keywords.quick_start,
        use_cases_count := (extract_use_cases content).length,
        sections_count := scc,
        avg_line_length := calculate_avg_line_length content } }

/-! ## maintenance_scorer.py -/

/-- Hard-coded version keyword list of
`MaintenanceScorer._score_compatibility`. -/
def version_keywords : List String := ["version", "v1", "v2", "版本"]

/-- Hard-coded dependency keyword list of
`MaintenanceScorer._score_compatibility`. -/
def dependency_keywords : List String :=
  ["dependency", "requirement", "install", "npm", "pip", "依赖"]

/-- Python `value >= threshold` on a dynamic metadata value: numbers and
booleans compare, anything else raises `TypeError`. -/
def JVal.geNum : JVal → ℚ → Except PyErr Bool
  | .num q, t => .ok (t ≤ q)
  | .bool b, t => .ok (t ≤ (if b then 1 else 0))
  | _, _ => .error .typeError

/-- `MaintenanceScorer._calculate_days_since_update` at wall-clock `now`
(seconds): unit normalization divides a timestamp above `1e11` by 1000;
`timedelta.days` floors.  A non-numeric timestamp raises `TypeError` at
`updated_timestamp > 1e11`, which the surrounding `except` turns into
`None`.  (`datetime.fromtimestamp` range errors for astronomically large
values are outside the modelled domain.) -/
def calculate_days_since_update (meta? : Option Meta) (now : ℚ) : Option ℤ :=
  match meta? with
  | none => none
  | some m =>
    if m.isEmpty then none
    else
      match m.lookup "updatedAt" with
      | none => none
      | some (.num t) =>
        let t2 := if (100000000000 : ℚ) < t then t / 1000 else t
        some ⌊(now - t2) / 86400⌋
      | some (.bool b) =>
        some ⌊(now - (if b then (1 : ℚ) else 0)) / 86400⌋
      | some _ => none

/-- `MaintenanceScorer._score_update_frequency`: three-tier bucketing of
the days since update.  When the day computation yields `None` (e.g. a
non-numeric timestamp), the comparison `None < int` raises `TypeError`. -/
def score_update_frequency (cfg : Config) (meta? : Option Meta) (now : ℚ) :
    Except PyErr ℤ :=
  match meta? with
  | none => .ok 0
  | some m =>
    if m.isEmpty then .ok 0
    else if (m.lookup "updatedAt").isNone then .ok 0
    else
      match calculate_days_since_update (some m) now with
      | some d =>
        .ok (if d < cfg.analysis.recent_update_days then 3
          else if d < cfg.analysis.active_update_days then 2
          else if d < 365 then 1
          else 0)
      | none => .error .typeError

/-- `MaintenanceScorer._score_community_activity`: six-tier star
bucketing; an ill-typed `stars` raises `TypeError` at the comparison. -/
def score_community_activity (cfg : Config) (meta? : Option Meta) :
    Except PyErr ℤ :=
  match meta? with
  | none => .ok 0
  | some m =>
    if m.isEmpty then .ok 0
    else
      match m.lookup "stars" with
      | none => .ok 0
      | some v =>
        -- sequential `elif` chain; each comparison may raise
        match v.geNum (cfg.stars_thresholds.excellent : ℚ) with
        | .error e => .error e
        | .ok true => .ok 5
        | .ok false =>
          match v.geNum (cfg.stars_thresholds.good : ℚ) with
          | .error e => .error e
          | .ok true => .ok 4
          | .ok false =>
            match v.geNum (cfg.stars_thresholds.fair : ℚ) with
            | .error e => .error e
            | .ok true => .ok 3
            | .ok false =>
              match v.geNum 10 with
              | .error e => .error e
              | .ok true => .ok 2
              | .ok false =>
                match v.geNum 1 with
                | .error e => .error e
                | .ok true => .ok 1
                | .ok false => .ok 0

/-- `MaintenanceScorer._score_compatibility`. -/
def score_compatibility (cfg : Config) (content : String) : ℤ :=
  let s1 : ℤ := if check_keywords content version_keywords then 1 else 0
  let s2 : ℤ := if check_keywords content dependency_keywords then 1 else 0
  min (s1 + s2) cfg.maintenance_weights.compatibility

structure MaintenanceDetails where
  has_metadata : Bool
  days_since_update : Option ℤ
  stars : JVal
  has_version_info : Bool
deriving DecidableEq

structure MaintenanceResult where
  total : ℤ
  max : ℤ
  update_frequency : ℤ
  community_activity : ℤ
  compatibility : ℤ
  details : MaintenanceDetails
deriving DecidableEq

/-- `MaintenanceScorer.score` (an `Except` because two sub-scores can
raise on ill-typed metadata). -/
def MaintenanceScorer.score (cfg : Config) (meta? : Option Meta)
    (content : String) (now : ℚ) : Except PyErr MaintenanceResult :=
  match score_update_frequency cfg meta? now with
  | .error e => .error e
  | .ok u =>
  match score_community_activity cfg meta? with
  | .error e => .error e
  | .ok c =>
  let compat := score_compatibility cfg content
  .ok
    { total := u + c + compat,
      max := cfg.maintenance_weights.total,
      update_frequency := u,
      community_activity := c,
      compatibility := compat,
      details :=
        { has_metadata := meta?.isSome,
          days_since_update :=
            match meta? with
            | some m =>
              if m.isEmpty then none else calculate_days_since_update (some m) now
            | none => none,
          stars :=
            match meta? with
            | some m => if m.isEmpty then .num 0 else (m.lookup "stars").getD (.num 0)
            | none => .num 0,
          has_version_info := strContains (pyLower content.toList) "version".toList } }

/-! ## skill_analyzer.py -/

/-- The file-system surroundings of one analysis run: the optional
SKILL.md text and the sidecar metadata outcome (see `load_metadata`). -/
structure SkillEnv where
  skill_name : String
  skill_path : String
  skillMd : Option String
  metadataFile : Option (Option Meta)
deriving DecidableEq

/-- `SkillDocument._load_content`: raises `FileNotFoundError` when
SKILL.md is absent. -/
def load_content (env : SkillEnv) : Except PyErr String :=
  match env.skillMd with
  | none => .error (.fileNotFound ("SKILL.md not found in " ++ env.skill_path))
  | some s => .ok s

structure ScoresRecord where
  content : ContentResult
  technical : TechnicalResult
  maintenance : MaintenanceResult
  ux : UxResult
deriving DecidableEq

/-- The analysis result record; the success shape and the error shape of
the Python dict are merged, with `Option` marking fields only one shape
carries. -/
structure AnalyzeRecord where
  skill_name : String
  skill_path : String
  error : Option String
  total_score : ℤ
  grade : String
  scores : Option ScoresRecord
  metadata : Option Meta
  yaml_metadata : Option String
  recommendations : List String
deriving DecidableEq

/-- `SkillAnalyzer._get_grade`. -/
def get_grade (cfg : Config) (total : ℤ) : String :=
  if total ≥ cfg.grade_thresholds.S then "S"
  else if total ≥ cfg.grade_thresholds.A then "A"
  else if total ≥ cfg.grade_thresholds.B then "B"
  else if total ≥ cfg.grade_thresholds.C then "C"
  else "D"

/-- `SkillAnalyzer._generate_recommendations` (quote characters inside
the Python message literals are dropped). -/
def generate_recommendations (c : ContentResult) (t : TechnicalResult)
    (m : MaintenanceResult) (u : UxResult) : List String :=
  (if !c.details.has_when_to_use then ["添加 When to Use 章节，明确使用场景"] else []) ++
  (if c.details.use_cases_count < 3 then ["增加使用场景描述（建议至少3个）"] else []) ++
  (if c.details.code_blocks_count < 3 then ["增加代码示例（建议至少3个）"] else []) ++
  (if !c.details.has_best_practices then ["添加最佳实践说明"] else []) ++
  (if !t.details.has_security_keywords then ["添加安全性考虑说明（输入验证、权限控制等）"] else []) ++
  (if t.details.design_patterns_found.length = 0 then ["添加设计模式或架构说明"] else []) ++
  (if !t.details.has_error_handling then ["完善错误处理示例和说明"] else []) ++
  (match m.details.days_since_update with
   | some d => if d ≠ 0 ∧ 180 < d then ["技能已 " ++ toString d ++ " 天未更新，建议更新内容"] else []
   | none => []) ++
  (if !m.details.has_version_info then ["添加版本兼容性说明"] else []) ++
  (if !u.details.has_quick_start then ["添加 Quick Start 或 Getting Started 章节"] else []) ++
  (if u.details.sections_count < 4 then ["改进文档结构，增加章节划分"] else [])

/-- `str(e)` of the caught exception. -/
def errMsg : PyErr → String
  | .typeError => "TypeError"
  | .fileNotFound m => m

/-- The `try` body of `SkillAnalyzer.analyze`. -/
noncomputable def analyzeBody (cfg : Config) (sp : ScoringParams)
    (env : SkillEnv) (now : ℚ) : Except PyErr AnalyzeRecord := do
  let raw ← load_content env
  let meta := load_metadata env.metadataFile
  let fm := parse_frontmatter raw
  let doc : SkillDoc := ⟨fm.2, meta, fm.1⟩
  let c := ContentScorer.score cfg sp (.doc doc) meta
  let t := TechnicalScorer.score cfg sp (.doc doc)
  let m ← MaintenanceScorer.score cfg meta doc.markdown_body now
  let u := UXScorer.score cfg (.doc doc)
  let total := c.total + t.total + m.total + u.total
  .ok
    { skill_name := env.skill_name,
      skill_path := env.skill_path,
      error := none,
      total_score := total,
      grade := get_grade cfg total,
      scores := some ⟨c, t, m, u⟩,
      metadata := meta,
      yaml_metadata := fm.1,
      recommendations := generate_recommendations c t m u }

/-- The error record built by the `except Exception` branch of
`SkillAnalyzer.analyze`. -/
def errorRecord (env : SkillEnv) (e : PyErr) : AnalyzeRecord :=
  { skill_name := env.skill_name,
    skill_path := env.skill_path,
    error := some (errMsg e),
    total_score := 0,
    grade := "ERROR",
    scores := none,
    metadata := none,
    yaml_metadata := none,
    recommendations := [] }

/-- `SkillAnalyzer.analyze`: every exception from the body — including
the `FileNotFoundError` of a missing SKILL.md — is caught and converted
into an error record; the function never raises. -/
noncomputable def SkillAnalyzer.analyze (cfg : Config) (sp : ScoringParams)
    (env : SkillEnv) (now : ℚ) : AnalyzeRecord :=
  match analyzeBody cfg sp env now with
  | .ok r => r
  | .error e => errorRecord env e

/-! ## Concrete configurations for witnesses and counterexamples -/

/-- The resolved default smooth parameters: the six pairs of
`ScoringConfig.DEFAULT_CONFIG` in config_loader.py. -/
def spDefault : ScoringParams :=
  ⟨⟨5, 5⟩, ⟨8, 7⟩, ⟨5, 4⟩, ⟨10, 6⟩, ⟨5, 4⟩, ⟨5, 5⟩⟩

/-- Modelled from the spec: the default rubric values.  The shipped
rubric file (tools/config/scoring_weights.json) is not among the sources;
the weight totals come from the scorer docstrings (content 50, technical
30, maintenance 10, UX 10 with the documented sub-ceilings), the
maintenance tiers from the spec's three-tier bucketing and the scorer's
inline comments (recent 90 days, active 180 days; star tiers 10000 /
1000 / 100), and keyword lists are left empty. -/
def cfgDefault : Config where
  content_weights := ⟨50, 13, 19, 13, 5⟩
  technical_weights := ⟨30, 15, 10, 5⟩
  maintenance_weights := ⟨10, 2⟩
  ux_weights := ⟨10, 5, 5⟩
  keywords := ⟨[], [], [], [], [], []⟩
  analysis := ⟨90, 180, 40, 100, 4⟩
  stars_thresholds := ⟨10000, 1000, 100⟩
  grade_thresholds := ⟨90, 80, 70, 60⟩

/-! ## Claim C2 -/

/-- An analysis environment whose SKILL.md is absent. -/
def envMissing : SkillEnv := ⟨"s", "/skills/s", none, none⟩

/-- C2 counterexample: with SKILL.md absent, `SkillAnalyzer.analyze` does
not propagate the not-found failure to its caller — the generic
`except Exception` converts it into an error record (`grade "ERROR"`,
`total_score 0`), so no analysis run raises. -/
theorem claim_C2_counterexample :
    SkillAnalyzer.analyze cfgDefault spDefault envMissing 0 =
      { skill_name := "s", skill_path := "/skills/s",
        error := some "SKILL.md not found in /skills/s",
        total_score := 0, grade := "ERROR", scores := none,
        metadata := none, yaml_metadata := none, recommendations := [] } := rfl

/-- C2 amended: a missing SKILL.md makes the document-loading step of the
analysis body fail with the distinct FileNotFoundError, but
`SkillAnalyzer.analyze` catches it like every other exception and returns
the error record; `analyze` itself never raises. -/
theorem claim_C2_amended (cfg : Config) (sp : ScoringParams) (env : SkillEnv)
    (now : ℚ) (h : env.skillMd = none) :
    analyzeBody cfg sp env now =
      .error (.fileNotFound ("SKILL.md not found in " ++ env.skill_path)) ∧
    SkillAnalyzer.analyze cfg sp env now =
      errorRecord env (.fileNotFound ("SKILL.md not found in " ++ env.skill_path)) := by
  obtain ⟨nm, pa, md, mf⟩ := env
  simp only [SkillEnv.skillMd] at h
  subst h
  constructor
  · rfl
  · rfl

/-- Witness for C2 at the concrete missing-file environment. -/
theorem claim_C2_witness :
    envMissing.skillMd = none ∧
    (analyzeBody cfgDefault spDefault envMissing 0 =
      .error (.fileNotFound ("SKILL.md not found in " ++ envMissing.skill_path)) ∧
    SkillAnalyzer.analyze cfgDefault spDefault envMissing 0 =
      errorRecord envMissing
        (.fileNotFound ("SKILL.md not found in " ++ envMissing.skill_path))) :=
  ⟨rfl, claim_C2_amended cfgDefault spDefault envMissing 0 rfl⟩

/-! ## Claim C6 -/

/-- C6: absent or unparseable sidecar metadata loads as `None` without
raising, but the maintenance scorer does *not* always return a result
record: a present `updatedAt` whose day computation fails (here a
non-numeric timestamp string) makes `_score_update_frequency` evaluate
`None < self.analysis['recent_update_days']`, raising `TypeError` out of
`MaintenanceScorer.score` — the code contradicts the degrade-to-default
error design. -/
theorem claim_C6_bug :
    load_metadata none = none ∧
    load_metadata (some none) = none ∧
    score_update_frequency cfgDefault (some [("updatedAt", .str "2024-01-01")]) 0 =
      .error .typeError ∧
    MaintenanceScorer.score cfgDefault (some [("updatedAt", .str "2024-01-01")]) "" 0 =
      .error .typeError := by
  refine ⟨rfl, rfl, rfl, rfl⟩

/-! ## Claim C8 -/

/-- C8: for every metadata record whose `updatedAt` timestamp is (after
the `1e11` magnitude normalization, dividing by 1000) more than 400 days
before `now`, the maintenance update-frequency sub-score is 0, for any
rubric whose recent/active thresholds do not exceed 400 days (the
modelled defaults are 90 and 180) and regardless of the other metadata
fields. -/
theorem claim_C8 (cfg : Config) (hr : cfg.analysis.recent_update_days ≤ 400)
    (ha : cfg.analysis.active_update_days ≤ 400)
    (m : Meta) (now t : ℚ)
    (hup : m.lookup "updatedAt" = some (.num t))
    (hpast : 400 * 86400 < now - (if (100000000000 : ℚ) < t then t / 1000 else t)) :
    score_update_frequency cfg (some m) now = .ok 0 := by
  match m, hup with
  | (k, v) :: tl, hup =>
    set t2 := (if (100000000000 : ℚ) < t then t / 1000 else t) with ht2
    have hne : ((k, v) :: tl : Meta).isEmpty = false := rfl
    have hdays : calculate_days_since_update (some ((k, v) :: tl)) now =
        some ⌊(now - t2) / 86400⌋ := by
      simp [calculate_days_since_update, hne, hup]
    have hfloor : (400 : ℤ) ≤ ⌊(now - t2) / 86400⌋ := by
      rw [Int.le_floor, le_div_iff (by norm_num : (0:ℚ) < 86400)]
      push_cast
      linarith
    have h1 : ¬(⌊(now - t2) / 86400⌋ < cfg.analysis.recent_update_days) := by omega
    have h2 : ¬(⌊(now - t2) / 86400⌋ < cfg.analysis.active_update_days) := by omega
    have h3 : ¬(⌊(now - t2) / 86400⌋ < 365) := by omega
    simp [score_update_frequency, hne, hup, hdays, h1, h2, h3]

/-- Witness for C8: timestamp 0 (the epoch), `now` 500 days later, with
an extra ill-typed metadata field present. -/
theorem claim_C8_witness :
    cfgDefault.analysis.recent_update_days ≤ 400 ∧
    cfgDefault.analysis.active_update_days ≤ 400 ∧
    ([("updatedAt", JVal.num 0), ("stars", JVal.str "x")] : Meta).lookup "updatedAt" =
      some (.num 0) ∧
    (400 * 86400 : ℚ) <
      (500 * 86400 : ℚ) - (if (100000000000 : ℚ) < 0 then 0 / 1000 else 0) ∧
    score_update_frequency cfgDefault
      (some [("updatedAt", JVal.num 0), ("stars", JVal.str "x")]) (500 * 86400) = .ok 0 :=
  ⟨by decide, by decide, by decide, by norm_num,
    claim_C8 cfgDefault (by decide) (by decide)
      [("updatedAt", JVal.num 0), ("stars", JVal.str "x")] (500 * 86400) 0
      (by decide) (by norm_num)⟩

/-! ## Claim C1 -/

theorem score_clarity_le (cfg : Config) (sp : ScoringParams) (content : String)
    (doc? : Option SkillDoc) :
    score_clarity cfg sp content doc? ≤ cfg.content_weights.clarity := by
  simp only [score_clarity]
  exact min_le_right _ _

theorem score_technical_depth_le (cfg : Config) (sp : ScoringParams) (content : String)
    (doc? : Option SkillDoc) :
    score_technical_depth cfg sp content doc? ≤ cfg.content_weights.technical_depth := by
  simp only [score_technical_depth]
  exact min_le_right _ _

theorem score_documentation_le (cfg : Config) (sp : ScoringParams) (content : String)
    (doc? : Option SkillDoc) :
    score_documentation cfg sp content doc? ≤ cfg.content_weights.documentation := by
  simp only [score_documentation]
  exact min_le_right _ _

theorem score_actionability_le (cfg : Config) (content : String)
    (doc? : Option SkillDoc) :
    score_actionability cfg content doc? ≤ cfg.content_weights.actionability := by
  simp only [score_actionability]
  exact min_le_right _ _

theorem score_code_quality_le (cfg : Config) (sp : ScoringParams) (content : String)
    (doc? : Option SkillDoc) :
    score_code_quality cfg sp content doc? ≤ cfg.technical_weights.code_quality := by
  simp only [score_code_quality]
  exact min_le_right _ _

theorem score_pattern_design_le (cfg : Config) (content : String)
    (doc? : Option SkillDoc) :
    score_pattern_design cfg content doc? ≤ cfg.technical_weights.pattern_design := by
  simp only [score_pattern_design]
  exact min_le_right _ _

theorem score_error_handling_le (cfg : Config) (content : String)
    (doc? : Option SkillDoc) :
    score_error_handling cfg content doc? ≤ cfg.technical_weights.error_handling := by
  simp only [score_error_handling]
  exact min_le_right _ _

theorem score_ease_of_use_le (cfg : Config) (content : String)
    (doc? : Option SkillDoc) :
    score_ease_of_use cfg content doc? ≤ cfg.ux_weights.ease_of_use := by
  simp only [score_ease_of_use]
  exact min_le_right _ _

theorem score_readability_le (cfg : Config) (content : String)
    (doc? : Option SkillDoc) :
    score_readability cfg content doc? ≤ cfg.ux_weights.readability := by
  simp only [score_readability]
  exact min_le_right _ _

theorem score_compatibility_le (cfg : Config) (content : String) :
    score_compatibility cfg content ≤ cfg.maintenance_weights.compatibility := by
  simp only [score_compatibility]
  exact min_le_right _ _

theorem score_update_frequency_le (cfg : Config) (meta? : Option Meta) (now : ℚ)
    (u : ℤ) (h : score_update_frequency cfg meta? now = .ok u) : u ≤ 3 := by
  unfold score_update_frequency at h
  repeat' split at h
  all_goals first
    | (injection h with h2; omega)
    | exact Except.noConfusion h

theorem score_community_activity_le (cfg : Config) (meta? : Option Meta)
    (c : ℤ) (h : score_community_activity cfg meta? = .ok c) : c ≤ 5 := by
  unfold score_community_activity at h
  repeat' split at h
  all_goals first
    | (injection h with h2; omega)
    | exact Except.noConfusion h

/-- The configuration that the C1 counterexample uses: the maintenance
dimension ceiling is 5 while the sub-ceilings (3 + 5 + 2) sum to 10. -/
def cfgBadMaint : Config where
  content_weights := ⟨50, 13, 19, 13, 5⟩
  technical_weights := ⟨30, 15, 10, 5⟩
  maintenance_weights := ⟨5, 2⟩
  ux_weights := ⟨10, 5, 5⟩
  keywords := ⟨[], [], [], [], [], []⟩
  analysis := ⟨90, 180, 40, 100, 4⟩
  stars_thresholds := ⟨10000, 1000, 100⟩
  grade_thresholds := ⟨90, 80, 70, 60⟩

/-- The metadata record of the C1 counterexample: updated at the epoch
with 20000 stars. -/
def mC1 : Meta := [("updatedAt", JVal.num 0), ("stars", JVal.num 20000)]

/-- C1 counterexample: a dimension total is *not* capped again at the
dimension ceiling.  With a rubric whose maintenance ceiling is 5 (below
the 3 + 5 + 2 sub-ceiling sum), a fresh well-starred document scores a
maintenance total of 10 — the returned total exceeds the configured
dimension ceiling. -/
theorem claim_C1_counterexample :
    (MaintenanceScorer.score cfgBadMaint (some mC1) "version install" 0).map
      MaintenanceResult.total = .ok 10 ∧
    cfgBadMaint.maintenance_weights.total = 5 := by
  have hd : calculate_days_since_update (some mC1) 0 = some 0 := by
    norm_num [calculate_days_since_update, mC1, List.lookup]
  have he : mC1.isEmpty = false := rfl
  have hl : (mC1.lookup "updatedAt").isNone = false := rfl
  have hu : score_update_frequency cfgBadMaint (some mC1) 0 = .ok 3 := by
    simp only [score_update_frequency, he, hl, hd, Bool.false_eq_true, if_false]
    norm_num [cfgBadMaint]
  have hc : score_community_activity cfgBadMaint (some mC1) = .ok 5 := by decide
  have hcomp : score_compatibility cfgBadMaint "version install" = 2 := by decide
  refine ⟨?_, rfl⟩
  simp only [MaintenanceScorer.score, hu, hc, hcomp, Except.map]
  norm_num

/-- C1 amended: in every dimension scorer each sub-score is capped at its
own (configured, or for the maintenance recency/popularity tiers,
hard-coded) ceiling before summation, but the dimension total is exactly
the uncapped sum of the capped sub-scores — no second cap at the
dimension ceiling is applied, so the total can exceed the dimension
ceiling when the sub-ceilings sum to more. -/
theorem claim_C1_amended :
    (∀ (cfg : Config) (sp : ScoringParams) (input : ScorerInput) (meta : Option Meta),
      (ContentScorer.score cfg sp input meta).clarity ≤ cfg.content_weights.clarity ∧
      (ContentScorer.score cfg sp input meta).technical_depth ≤
        cfg.content_weights.technical_depth ∧
      (ContentScorer.score cfg sp input meta).documentation ≤
        cfg.content_weights.documentation ∧
      (ContentScorer.score cfg sp input meta).actionability ≤
        cfg.content_weights.actionability ∧
      (ContentScorer.score cfg sp input meta).total =
        (ContentScorer.score cfg sp input meta).clarity +
        (ContentScorer.score cfg sp input meta).technical_depth +
        (ContentScorer.score cfg sp input meta).documentation +
        (ContentScorer.score cfg sp input meta).actionability) ∧
    (∀ (cfg : Config) (sp : ScoringParams) (input : ScorerInput),
      (TechnicalScorer.score cfg sp input).code_quality ≤
        cfg.technical_weights.code_quality ∧
      (TechnicalScorer.score cfg sp input).pattern_design ≤
        cfg.technical_weights.pattern_design ∧
      (TechnicalScorer.score cfg sp input).error_handling ≤
        cfg.technical_weights.error_handling ∧
      (TechnicalScorer.score cfg sp input).total =
        (TechnicalScorer.score cfg sp input).code_quality +
        (TechnicalScorer.score cfg sp input).pattern_design +
        (TechnicalScorer.score cfg sp input).error_handling) ∧
    (∀ (cfg : Config) (meta? : Option Meta) (content : String) (now : ℚ)
        (r : MaintenanceResult),
      MaintenanceScorer.score cfg meta? content now = .ok r →
      r.update_frequency ≤ 3 ∧ r.community_activity ≤ 5 ∧
      r.compatibility ≤ cfg.maintenance_weights.compatibility ∧
      r.total = r.update_frequency + r.community_activity + r.compatibility) ∧
    (∀ (cfg : Config) (input : ScorerInput),
      (UXScorer.score cfg input).ease_of_use ≤ cfg.ux_weights.ease_of_use ∧
      (UXScorer.score cfg input).readability ≤ cfg.ux_weights.readability ∧
      (UXScorer.score cfg input).total =
        (UXScorer.score cfg input).ease_of_use +
        (UXScorer.score cfg input).readability) := by
  refine ⟨fun cfg sp input meta => ?_, fun cfg sp input => ?_,
    fun cfg meta? content now r h => ?_, fun cfg input => ?_⟩
  · exact ⟨score_clarity_le cfg sp input.contentStr input.docOpt,
      score_technical_depth_le cfg sp input.contentStr input.docOpt,
      score_documentation_le cfg sp input.contentStr input.docOpt,
      score_actionability_le cfg input.contentStr input.docOpt, rfl⟩
  · exact ⟨score_code_quality_le cfg sp input.contentStr input.docOpt,
      score_pattern_design_le cfg input.contentStr input.docOpt,
      score_error_handling_le cfg input.contentStr input.docOpt, rfl⟩
  · unfold MaintenanceScorer.score at h
    split at h
    · exact Except.noConfusion h
    · split at h
      · exact Except.noConfusion h
      · rename_i u hu cres c hc
        injection h with h
        subst h
        exact ⟨score_update_frequency_le cfg meta? now u hu,
          score_community_activity_le cfg meta? c hc,
          score_compatibility_le cfg content, rfl⟩
  · exact ⟨score_ease_of_use_le cfg input.contentStr input.docOpt,
      score_readability_le cfg input.contentStr input.docOpt, rfl⟩

/-- Witness for the maintenance conjunct of C1: empty environment. -/
theorem claim_C1_witness :
    MaintenanceScorer.score cfgDefault none "" 0 =
      .ok { total := 0, max := 10, update_frequency := 0, community_activity := 0,
            compatibility := 0,
            details := { has_metadata := false, days_since_update := none,
                         stars := .num 0, has_version_info := false } } ∧
    (0 : ℤ) ≤ 3 ∧ (0 : ℤ) ≤ 5 ∧
    (0 : ℤ) ≤ cfgDefault.maintenance_weights.compatibility ∧
    (0 : ℤ) = 0 + 0 + 0 :=
  ⟨rfl, claim_C1_amended.2.2.1 cfgDefault none "" 0 _ rfl⟩

/-! ## Claim C3 -/

/-- The C3 counterexample document text: its only heading is
`# Usage Scenarios`. -/
def sC3 : String := "# Usage Scenarios\nx"

/-- The parsed `SkillDocument` of the same text. -/
def dC3 : SkillDoc := SkillDoc.ofRaw sC3 none

/-- C3 counterexample: the raw-text path and the Document path disagree.
`utils.has_section` accepts the variant `usage scenario` as a substring of
a heading, while `SkillDocument.has_section` (word-boundary matching on
`When to Use`) rejects it, so the two invocations return different
ScoreResults for the same text (already their `has_when_to_use` details
differ, hence also the clarity sub-score). -/
theorem claim_C3_counterexample :
    (ContentScorer.score cfgDefault spDefault (.raw sC3) none).details.has_when_to_use
      = true ∧
    (ContentScorer.score cfgDefault spDefault (.doc dC3) none).details.has_when_to_use
      = false ∧
    ContentScorer.score cfgDefault spDefault (.raw sC3) none ≠
      ContentScorer.score cfgDefault spDefault (.doc dC3) none := by
  have h1 : (ContentScorer.score cfgDefault spDefault (.raw sC3) none).details.has_when_to_use
      = true := by decide
  have h2 : (ContentScorer.score cfgDefault spDefault (.doc dC3) none).details.has_when_to_use
      = false := by decide
  refine ⟨h1, h2, fun h => ?_⟩
  rw [h, h2] at h1
  exact Bool.false_ne_true h1

/-- C3 amended: the raw-text path recomputes the structural inputs with
its own (older, variant-based) logic instead of parsing and delegating;
the two entry points return the same ScoreResult exactly when those
independently computed inputs coincide — i.e. when the document has no
frontmatter and every section-presence check and both counts agree
between `utils` and the Document. -/
theorem claim_C3_amended (cfg : Config) (sp : ScoringParams) (s : String)
    (meta : Option Meta) (d : SkillDoc)
    (hbody : d.markdown_body = s)
    (h1 : d.has_section "When to Use" = has_section s "When to Use")
    (h2 : d.has_section "Best Practice" = has_section s "Best Practice")
    (h3 : d.has_section "Pattern" = has_section s "Pattern")
    (h4 : d.has_section "Architecture" = has_section s "Architecture")
    (h5 : d.has_section "Example" = has_section s "Example")
    (h6 : d.has_section "Pitfall" = has_section s "Pitfall")
    (h7 : d.has_section "Common Mistake" = has_section s "Common Mistake")
    (h8 : d.code_blocks.length = count_code_blocks s)
    (h9 : d.sections.length = count_sections s) :
    ContentScorer.score cfg sp (.doc d) meta =
      ContentScorer.score cfg sp (.raw s) meta := by
  simp only [ContentScorer.score, ScorerInput.contentStr, ScorerInput.docOpt,
    score_clarity, score_technical_depth, score_documentation, score_actionability,
    hbody, h1, h2, h3, h4, h5, h6, h7, h8, h9]

theorem parse_code_blocks_nil : parse_code_blocks "" = [] := by
  unfold parse_code_blocks
  rw [show ("" : String).toList = [] from rfl]
  simp only [findCodeBlocksGo, List.map_nil]

theorem count_code_blocks_nil : count_code_blocks "" = 0 := by
  unfold count_code_blocks
  rw [show ("" : String).toList = [] from rfl, countCodeBlocksGo.eq_def]
  split
  · rfl
  · rename_i rest1 h1
    have hn : cutAfterSub [] ['`', '`', '`'] = none := by decide
    rw [hn] at h1
    exact Option.noConfusion h1

/-- Witness for C3 on the empty document, where all the agreement
hypotheses hold. -/
theorem claim_C3_witness :
    (SkillDoc.ofRaw "" none).markdown_body = "" ∧
    ContentScorer.score cfgDefault spDefault (.doc (SkillDoc.ofRaw "" none)) none =
      ContentScorer.score cfgDefault spDefault (.raw "") none :=
  ⟨rfl, claim_C3_amended cfgDefault spDefault "" none (SkillDoc.ofRaw "" none) rfl
    (by decide) (by decide) (by decide) (by decide) (by decide) (by decide) (by decide)
    (by rw [show (SkillDoc.ofRaw "" none).code_blocks = parse_code_blocks "" from rfl,
          parse_code_blocks_nil, count_code_blocks_nil]; rfl)
    (by decide)⟩

/-! ## config_loader.ScoringConfig._merge_configs (claim C9) -/

/-- A loaded configuration value (YAML-like): scalars or a nested
mapping, the mapping modelled as an ordered association list the way a
Python dict preserves insertion order. -/
inductive CVal where
  | int : ℤ → CVal
  | str : String → CVal
  | bool : Bool → CVal
  | obj : List (String × CVal) → CVal

/-- Python `key in m` / `m[key]` (first matching key). -/
def lookupKey : List (String × CVal) → String → Option CVal
  | [], _ => none
  | (k2, v) :: t, k => if k2 = k then some v else lookupKey t k

/-- Python `m[key] = value`: replace in place, else append. -/
def setKey : List (String × CVal) → String → CVal → List (String × CVal)
  | [], k, v => [(k, v)]
  | (k2, v2) :: t, k, v =>
    if k2 = k then (k2, v) :: t else (k2, v2) :: setKey t k v

mutual

/-- `ScoringConfig._merge_configs(default, loaded)`: start from the
default, then for each loaded key merge recursively when both sides hold
nested mappings (`mergeValue`) and overwrite wholesale otherwise. -/
def merge_configs : List (String × CVal) → List (String × CVal) →
    List (String × CVal)
  | d, [] => d
  | d, (k, v) :: rest => merge_configs (setKey d k (mergeValue (lookupKey d k) v)) rest
termination_by d l => sizeOf l
decreasing_by
  · simp only [Prod.mk.sizeOf_spec, List.cons.sizeOf_spec]
    omega
  · simp only [List.cons.sizeOf_spec]
    omega

/-- The per-key body of the merge loop: recurse when both the present
default value and the loaded value are nested mappings, else the loaded
value overrides. -/
def mergeValue : Option CVal → CVal → CVal
  | some (.obj dsub), .obj lsub => .obj (merge_configs dsub lsub)
  | _, v => v
termination_by o v => sizeOf v
decreasing_by
  simp only [CVal.obj.sizeOf_spec]
  omega

end

theorem lookupKey_eq_none (m : List (String × CVal)) (k : String)
    (h : k ∉ m.map Prod.fst) : lookupKey m k = none := by
  induction m with
  | nil => rfl
  | cons p t ih =>
    obtain ⟨k2, v⟩ := p
    simp only [List.map_cons, List.mem_cons] at h
    push_neg at h
    simp only [lookupKey]
    rw [if_neg (fun he => h.1 he.symm)]
    exact ih h.2

theorem lookupKey_setKey_self (m : List (String × CVal)) (k : String) (v : CVal) :
    lookupKey (setKey m k v) k = some v := by
  induction m with
  | nil => simp [setKey, lookupKey]
  | cons p t ih =>
    obtain ⟨k2, v2⟩ := p
    by_cases h : k2 = k
    · simp [setKey, lookupKey, h]
    · simp only [setKey, lookupKey, if_neg h]
      exact ih

theorem lookupKey_setKey_ne (k k2 : String) (v : CVal) (h : k2 ≠ k) :
    ∀ m : List (String × CVal), lookupKey (setKey m k v) k2 = lookupKey m k2 := by
  intro m
  induction m with
  | nil =>
    simp only [setKey, lookupKey]
    rw [if_neg (fun he => h he.symm)]
  | cons p t ih =>
    obtain ⟨k3, v3⟩ := p
    by_cases h3 : k3 = k
    · have hne : ¬ k3 = k2 := fun he => h (he.symm.trans h3)
      simp only [setKey, if_pos h3, lookupKey, if_neg hne]
    · simp only [setKey, if_neg h3, lookupKey]
      by_cases h4 : k3 = k2
      · rw [if_pos h4, if_pos h4]
      · rw [if_neg h4, if_neg h4]
        exact ih

theorem merge_configs_lookup (l : List (String × CVal)) :
    ∀ (d : List (String × CVal)), (l.map Prod.fst).Nodup → ∀ k : String,
      lookupKey (merge_configs d l) k =
        match lookupKey l k, lookupKey d k with
        | none, dv => dv
        | some (.obj lsub), some (.obj dsub) => some (.obj (merge_configs dsub lsub))
        | some lv, _ => some lv := by
  induction l with
  | nil =>
    intro d _ k
    simp only [merge_configs, lookupKey]
  | cons p rest ih =>
    obtain ⟨k0, v0⟩ := p
    intro d hnd k
    simp only [List.map_cons, List.nodup_cons] at hnd
    simp only [merge_configs]
    rw [ih _ hnd.2 k]
    by_cases hk : k0 = k
    · subst hk
      have hrest : lookupKey rest k0 = none := lookupKey_eq_none rest k0 hnd.1
      rw [hrest, lookupKey_setKey_self]
      simp only [lookupKey, if_pos rfl]
      cases hdk : lookupKey d k0 with
      | none => cases v0 <;> simp [hdk, mergeValue]
      | some dv => cases dv <;> cases v0 <;> simp [hdk, mergeValue]
    · have hcons : lookupKey ((k0, v0) :: rest) k = lookupKey rest k := by
        simp only [lookupKey, if_neg hk]
      rw [hcons, lookupKey_setKey_ne k0 k _ (fun he => hk he.symm) d]

/-- C9: the configuration merge is a recursive override-preserving deep
merge.  For every default and loaded mapping with (Python-dict) distinct
loaded keys: a key absent from the loaded mapping keeps its default
value, a key whose values are nested mappings on both sides is merged
recursively, and any other loaded value replaces the default wholesale;
and merging `a: (b: 10)` onto `a: (b: 1, c: 2), d: 3` yields exactly
`a: (b: 10, c: 2), d: 3`. -/
theorem claim_C9 :
    (∀ (d l : List (String × CVal)), (l.map Prod.fst).Nodup → ∀ k : String,
      lookupKey (merge_configs d l) k =
        match lookupKey l k, lookupKey d k with
        | none, dv => dv
        | some (.obj lsub), some (.obj dsub) => some (.obj (merge_configs dsub lsub))
        | some lv, _ => some lv) ∧
    merge_configs
        [("a", .obj [("b", .int 1), ("c", .int 2)]), ("d", .int 3)]
        [("a", .obj [("b", .int 10)])] =
      [("a", .obj [("b", .int 10), ("c", .int 2)]), ("d", .int 3)] := by
  constructor
  · intro d l h k
    exact merge_configs_lookup l d h k
  · simp [merge_configs, mergeValue, lookupKey, setKey]

/-- Witness for C9's universal part at single-key mappings. -/
theorem claim_C9_witness :
    (([("x", CVal.int 2)].map Prod.fst).Nodup) ∧
    lookupKey (merge_configs [("x", CVal.int 1)] [("x", CVal.int 2)]) "x" =
      match lookupKey [("x", CVal.int 2)] "x", lookupKey [("x", CVal.int 1)] "x" with
      | none, dv => dv
      | some (.obj lsub), some (.obj dsub) => some (.obj (merge_configs dsub lsub))
      | some lv, _ => some lv :=
  ⟨by simp, claim_C9.1 [("x", CVal.int 1)] [("x", CVal.int 2)] (by simp) "x"⟩

end Analyzer
